import Mathlib

/-!
Verification development for the darkroom enlarger timer controller
(`lib/timer_manager.py`, `lib/gpio_control.py`, `lib/temperature_sensor.py`).

The Python code runs on a single-threaded cooperative asyncio event loop.
The embedding models:

* MicroPython tick arithmetic (`time.ticks_add` / `time.ticks_diff`) with the
  standard tick period of 2^30 milliseconds;
* `GPIOController` commanded relay state (the `RELAY_PINS[...]["state"]`
  cache) and its `cleanup` routine, with explicit hardware-write fault
  injection to model `pin.value` raising;
* the heating-control loop `start_heating_control` together with
  `set_heating_enabled`, as a small state machine whose suspension points
  (the 1 s disabled poll, the in-flight sensor conversion, the 15 s sleep)
  are the points at which other code may interleave; Python floats are
  modelled as rationals;
* `TimerManager`'s exposure-timer subsystem (`start_timer`, `stop_timer`,
  `_timer_task`, `get_timer_status`) as a small-step operational model: each
  task is a record holding the `_timer_task` locals, a program counter that
  identifies the suspension point the coroutine is parked at, a
  `cancelRequested` flag (set by `Task.cancel()`), and a `done` flag.  The
  event loop is modelled by a nondeterministic scheduler: an event either
  invokes one of the synchronous public operations, advances the clock, or
  resumes one parked task and runs it to its next suspension point
  (segments between suspension points are atomic, exactly as on a
  single-threaded cooperative loop).

Within a task segment the primitive operations are total, as in the source:
`GPIOController.set_relay_state` catches every exception internally and
returns a boolean (which `_timer_task` ignores), so the only exceptional
exit from the task body is `asyncio.CancelledError`, delivered at an
`await`.  A task cancelled before its first run never enters its `try`
block (throwing into a not-yet-started coroutine raises at the first line),
so it terminates without running the `except`/`finally` cleanup; this is
modelled by the silent-death step.
-/

namespace Enlarger

/-- Tick period of the MicroPython monotonic millisecond clock: tick values
returned by `time.ticks_ms` live in `[0, 2^30)` and wrap. -/
def TICKS_PERIOD : ℕ := 2 ^ 30

/-- Model of `time.ticks_add t d`: modular addition of a delay to a tick
value. -/
def ticks_add (t d : ℕ) : ℕ := (t + d) % TICKS_PERIOD

/-- Model of `time.ticks_diff a b`: signed modular difference, yielding a
value in `[-TICKS_PERIOD/2, TICKS_PERIOD/2)`. -/
def ticks_diff (a b : ℕ) : ℤ :=
  (((a : ℤ) - (b : ℤ) + TICKS_PERIOD / 2) % (TICKS_PERIOD : ℤ)) - TICKS_PERIOD / 2

/-- Fixed network-latency compensation delay, `SYNC_DELAY_MS = 150` in
`timer_manager.py`. -/
def SYNC_DELAY_MS : ℕ := 150

/-- The configured relay pins of `GPIOController.RELAY_PINS`, in dictionary
insertion order: 14 Enlarger Timer, 15 Safelight, 16 Ventilation,
17 White Light. -/
def RELAY_PIN_LIST : List ℕ := [14, 15, 16, 17]

/-- Validity check performed by `set_relay_state` (`gpio_pin not in
self.pins`). -/
def validPin (p : ℕ) : Bool := RELAY_PIN_LIST.contains p

/-- Model of `GPIOController.cleanup` (gpio_control.py lines 122-140).  The
commanded-state map `st` is `RELAY_PINS[p]["state"]`; `fails p = true`
models the hardware write `self.pins[p].value(1)` raising for pin `p`.  The
source wraps the whole `for` loop in a single `try`, so the first raising
write aborts the iteration: the `except` clause returns `False` and the
remaining pins are not written.  Returns the final commanded-state map and
the boolean result of `cleanup`. -/
def cleanupLoop (fails : ℕ → Bool) : List ℕ → (ℕ → Bool) → ((ℕ → Bool) × Bool)
  | [], st => (st, true)
  | p :: rest, st =>
    if fails p then (st, false)
    else cleanupLoop fails rest (fun q => if q = p then false else st q)

/-- Entry point of the `cleanup` model: iterate the configured pins. -/
def cleanup (fails : ℕ → Bool) (st : ℕ → Bool) : ((ℕ → Bool) × Bool) :=
  cleanupLoop fails RELAY_PIN_LIST st

/-! ## Heating control model

State machine for `start_heating_control` (timer_manager.py lines 262-318)
and `set_heating_enabled` (lines 350-364).  The loop's suspension points are
`await asyncio.sleep(1)` while disabled, the `await` inside
`read_temperature_async` (the 750 ms conversion wait), and
`await asyncio.sleep(15)` after applying hysteresis.  The program counter
`HeatPC.checkEnabled` stands for the loop top (including both sleeps, which
touch no state); `HeatPC.reading` stands for a sensor conversion in flight.
Temperatures (Python floats) are modelled as rationals. -/

/-- Heating-loop program counter: parked at the loop top, or suspended
inside `read_temperature_async` with a conversion in flight. -/
inductive HeatPC
  | checkEnabled
  | reading
deriving DecidableEq, Repr

/-- Heating hysteresis dead band, `self.heating_hysteresis = 0.5` °C. -/
def heating_hysteresis : ℚ := 1 / 2

/-- Relay pin assigned to the heating element, `self.heating_pin = 16`. -/
def heating_pin : ℕ := 16

/-- Mutable state of the heating subsystem: the commanded state of the
heating relay (the `GPIOController` cache for pin 16), the enable flag, the
target temperature, the cached last reading and the loop program counter. -/
structure HeatState where
  relayOn : Bool
  enabled : Bool
  target : ℚ
  lastTemperature : Option ℚ
  pc : HeatPC
deriving DecidableEq, Repr

/-- Boot-time heating state: relay commanded OFF, control disabled, default
target 20.0 °C, no cached reading, loop parked at its top. -/
def initHeatState : HeatState :=
  { relayOn := false, enabled := false, target := 20, lastTemperature := none,
    pc := HeatPC.checkEnabled }

/-- Outcome of one attempt of `TemperatureSensor.read_temperature_async`
(temperature_sensor.py lines 63-92): either a measured value or a failure
(no devices found, or any exception during conversion/readout). -/
inductive SensorOutcome
  | value (t : ℚ)
  | failure
deriving DecidableEq, Repr

/-- Return value of `read_temperature_async`: the measured temperature, or
`None` — the function catches every exception internally (lines 89-92) and
returns `None`, so no error propagates to the heating loop. -/
def read_temperature_async : SensorOutcome → Option ℚ
  | SensorOutcome.value t => some t
  | SensorOutcome.failure => none

/-- One scheduler step of the heating loop taken at the loop top (lines
278-286): when disabled the loop only sleeps and re-checks, touching neither
sensor nor relay; when enabled it starts a sensor conversion.  Returns the
new state and the list of relay write commands `(pin, on)` issued during the
step. -/
def heatLoopStep (h : HeatState) : HeatState × List (ℕ × Bool) :=
  match h.pc with
  | HeatPC.checkEnabled =>
    if h.enabled then ({ h with pc := HeatPC.reading }, []) else (h, [])
  | HeatPC.reading => (h, [])

/-- Completion of an in-flight sensor read (lines 286-309): the loop stores
the reading in `self.last_temperature`, forces the relay OFF on a failed
read, otherwise applies hysteresis against the current commanded relay
state, then sleeps 15 s and returns to the loop top.  Note that the source
does not re-check `self.heating_enabled` after the `await`, so this step
runs identically even if the controller was disabled while the conversion
was in flight.  Returns the new state and the relay write commands
issued. -/
def heatReadComplete (h : HeatState) (temp : Option ℚ) : HeatState × List (ℕ × Bool) :=
  let h1 := { h with lastTemperature := temp, pc := HeatPC.checkEnabled }
  match temp with
  | none => ({ h1 with relayOn := false }, [(heating_pin, false)])
  | some t =>
    if t < h.target - heating_hysteresis then
      if h.relayOn = false then ({ h1 with relayOn := true }, [(heating_pin, true)])
      else (h1, [])
    else if h.target ≤ t then
      if h.relayOn = true then ({ h1 with relayOn := false }, [(heating_pin, false)])
      else (h1, [])
    else (h1, [])

/-- Model of `set_heating_enabled` (lines 350-364): a synchronous call that
sets the flag and, on disable, immediately commands the heating relay OFF
and clears the cached temperature.  It does not touch the loop program
counter: an in-flight conversion stays in flight.  Returns the new state and
the relay write commands issued. -/
def set_heating_enabled (h : HeatState) (enabled : Bool) : HeatState × List (ℕ × Bool) :=
  if enabled then ({ h with enabled := true }, [])
  else
    ({ h with enabled := false, relayOn := false, lastTemperature := none },
      [(heating_pin, false)])

/-- Model of `set_target_temperature` (lines 320-328). -/
def set_target_temperature (h : HeatState) (t : ℚ) : HeatState :=
  { h with target := t }

/-! ## Exposure-timer operational model

Small-step model of the exposure subsystem of `TimerManager`
(timer_manager.py lines 26-260).  Durations are carried in milliseconds:
the Python API takes `duration_sec` (a float) and stores
`int(duration_sec * 1000)`; the model works directly with the
millisecond value. -/

/-- Program counter of `_timer_task` (lines 59-114), naming the suspension
point the coroutine is parked at: not yet started (`asyncio.create_task`
schedules but does not run), suspended in the scheduled-start
`asyncio.sleep_ms(wait_ms)` (line 76), or suspended in the exposure
`asyncio.sleep(duration_sec)` (line 91) with the relay commanded ON. -/
inductive TaskPC
  | created
  | waitStart
  | sleepDur
deriving DecidableEq, Repr

/-- One asyncio task running `_timer_task(pin, duration, start_at_ms)`:
its arguments, its program counter, the pending-cancellation flag set by
`Task.cancel()`, and whether it has reached a terminal state. -/
structure TaskRec where
  pin : ℕ
  durationMs : ℕ
  startAt : Option ℕ
  pc : TaskPC
  cancelRequested : Bool
  done : Bool
deriving DecidableEq, Repr

/-- Entry of `self.active_timers[pin]`: either the record written by
`start_timer` (lines 144-149: `task`, `start_at`, `duration_ms`,
`running: False`) or the record the task body overwrites it with at relay-ON
time (lines 79-83: `start_time`, `duration_ms`, `running: True`; the `task`
key is dropped). -/
inductive TimerInfo
  | pending (task : ℕ) (startAt : Option ℕ) (durationMs : ℕ)
  | running (startTime : ℕ) (durationMs : ℕ)
deriving DecidableEq, Repr

/-- Global state of the exposure subsystem: the commanded relay states (the
`GPIOController` cache), the two per-pin registries `self.active_timers` and
`self._task_refs`, the task table keyed by creation index, the next fresh
task index, and the current tick-clock value. -/
structure MState where
  relay : ℕ → Bool
  active_timers : ℕ → Option TimerInfo
  task_refs : ℕ → Option ℕ
  tasks : ℕ → Option TaskRec
  nextId : ℕ
  now : ℕ

/-- Boot state: every relay commanded OFF (`GPIOController` sets all pins
OFF at startup), empty registries, no tasks. -/
def initState : MState where
  relay := fun _ => false
  active_timers := fun _ => none
  task_refs := fun _ => none
  tasks := fun _ => none
  nextId := 0
  now := 0

/-- Model of `GPIOController.set_relay_state` (gpio_control.py lines
53-87) as used by the timer code: updates the commanded-state cache for a
configured pin, and is a no-op (returning `False`, which every caller in
`timer_manager.py` ignores) for an unconfigured pin. -/
def set_relay_state (s : MState) (p : ℕ) (b : Bool) : MState :=
  if validPin p then { s with relay := fun q => if q = p then b else s.relay q } else s

/-- Model of `task.cancel()`: set the pending-cancellation flag of a
not-yet-terminal task; cancelling a finished task is a no-op. -/
def cancelTask (s : MState) (tid : ℕ) : MState :=
  match s.tasks tid with
  | none => s
  | some T =>
    if T.done then s
    else
      { s with
        tasks := fun i =>
          if i = tid then some { T with cancelRequested := true } else s.tasks i }

/-- Model of `stop_timer` (lines 158-190): returns `False` when neither
registry has an entry for the pin; otherwise cancels the task held in
`_task_refs[pin]` and deletes that entry, additionally cancels the `task`
field of a `start_timer`-shaped `active_timers[pin]` entry and deletes the
entry, commands the relay OFF, and returns `True`. -/
def stop_timer (s : MState) (p : ℕ) : MState × Bool :=
  if s.active_timers p = none ∧ s.task_refs p = none then (s, false)
  else
    let s1 :=
      match s.task_refs p with
      | some tid =>
        let sA := cancelTask s tid
        { sA with task_refs := fun q => if q = p then none else sA.task_refs q }
      | none => s
    let s2 :=
      match s1.active_timers p with
      | some (TimerInfo.pending tid _ _) =>
        let sB := cancelTask s1 tid
        { sB with active_timers := fun q => if q = p then none else sB.active_timers q }
      | some (TimerInfo.running _ _) =>
        { s1 with active_timers := fun q => if q = p then none else s1.active_timers q }
      | none => s1
    (set_relay_state s2 p false, true)

/-- Model of `calculate_start_at` (lines 49-57): current tick value plus the
fixed synchronization delay, in modular tick arithmetic. -/
def calculate_start_at (s : MState) : ℕ := ticks_add s.now SYNC_DELAY_MS

/-- Return value of `start_timer` (lines 151-156). -/
structure StartResult where
  pin : ℕ
  durationMs : ℕ
  start_at : Option ℕ
  sync_delay_ms : ℕ
deriving DecidableEq, Repr

/-- Model of `start_timer` (lines 116-156): synchronously stop any existing
timer on the pin (cancelling its task and commanding the relay OFF), compute
the scheduled start, create the new task (scheduled, not yet run), store its
handle in `_task_refs[pin]`, store the display record in
`active_timers[pin]` with `running: False`, and return the timer info. -/
def start_timer (s : MState) (p durMs : ℕ) (scheduled : Bool) : MState × StartResult :=
  let s1 := (stop_timer s p).1
  let startAt := if scheduled then some (calculate_start_at s1) else none
  let tid := s1.nextId
  let s2 := { s1 with
    tasks := fun i => if i = tid then
      some { pin := p, durationMs := durMs, startAt := startAt,
             pc := TaskPC.created, cancelRequested := false, done := false }
      else s1.tasks i,
    nextId := tid + 1 }
  let s3 := { s2 with task_refs := fun q => if q = p then some tid else s2.task_refs q }
  let s4 := { s3 with
    active_timers := fun q =>
      if q = p then some (TimerInfo.pending tid startAt durMs) else s3.active_timers q }
  (s4, { pin := p, durationMs := durMs, start_at := startAt,
         sync_delay_ms := SYNC_DELAY_MS })

/-- The `finally` block of `_timer_task` (lines 103-114): delete the
`active_timers` entry for the pin if present (no identity check), and delete
the `_task_refs` entry only if it still refers to this very task
(`asyncio.current_task()` is available on MicroPython v1.27, so the
`AttributeError` fallback is dead code and the identity guard is live). -/
def finallyCleanup (s : MState) (tid p : ℕ) : MState :=
  let s1 := { s with active_timers := fun q => if q = p then none else s.active_timers q }
  if s1.task_refs p = some tid then
    { s1 with task_refs := fun q => if q = p then none else s1.task_refs q }
  else s1

/-- Mark a task terminal, leaving its other fields as they are. -/
def markDone (s : MState) (tid : ℕ) (T : TaskRec) : MState :=
  { s with tasks := fun i => if i = tid then some { T with done := true } else s.tasks i }

/-- The atomic segment of `_timer_task` from waking (or from entry, when no
positive wait is needed) to the exposure sleep (lines 78-91): record the
running status in `active_timers[pin]` (overwriting the `start_timer`
record, dropping the `task` key), command the relay ON, and suspend for the
duration. -/
def relayOnSegment (s : MState) (tid : ℕ) (T : TaskRec) : MState :=
  let s1 := { s with
    active_timers := fun q =>
      if q = T.pin then some (TimerInfo.running s.now T.durationMs)
      else s.active_timers q }
  let s2 := set_relay_state s1 T.pin true
  { s2 with
    tasks := fun i =>
      if i = tid then some { T with pc := TaskPC.sleepDur } else s2.tasks i }

/-- Resume task `tid` and run it to its next suspension point or to
termination, following `_timer_task` (lines 59-114):

* a task whose cancellation is pending and that never started dies without
  entering its `try` block (no cleanup runs);
* a task whose cancellation is pending and that is parked at an `await`
  receives `CancelledError` there: the `except` clause commands the relay
  OFF, the `finally` clause runs, and the task terminates re-raising the
  cancellation;
* an uncancelled task at entry computes `wait_ms = ticks_diff(start_at_ms,
  now)` and parks in `sleep_ms` when positive, otherwise proceeds directly
  to the relay-ON segment;
* an uncancelled task waking from the scheduled-start sleep runs the
  relay-ON segment;
* an uncancelled task waking from the exposure sleep commands the relay
  OFF, runs the `finally` clause, and terminates. -/
def runTask (s : MState) (tid : ℕ) : MState :=
  match s.tasks tid with
  | none => s
  | some T =>
    if T.done then s
    else if T.cancelRequested then
      match T.pc with
      | TaskPC.created => markDone s tid T
      | TaskPC.waitStart =>
        markDone (finallyCleanup (set_relay_state s T.pin false) tid T.pin) tid T
      | TaskPC.sleepDur =>
        markDone (finallyCleanup (set_relay_state s T.pin false) tid T.pin) tid T
    else
      match T.pc with
      | TaskPC.created =>
        match T.startAt with
        | some sa =>
          if 0 < ticks_diff sa s.now then
            { s with
              tasks := fun i =>
                if i = tid then some { T with pc := TaskPC.waitStart }
                else s.tasks i }
          else relayOnSegment s tid T
        | none => relayOnSegment s tid T
      | TaskPC.waitStart => relayOnSegment s tid T
      | TaskPC.sleepDur =>
        markDone (finallyCleanup (set_relay_state s T.pin false) tid T.pin) tid T

/-- Status record returned by `get_timer_status` (lines 204-242): the
running shape `{running: True, elapsed_ms, remaining_ms, duration_ms}` or
the scheduled shape `{running: False, scheduled: True, start_at,
duration_ms}`. -/
inductive TimerStatus
  | runningStatus (pin : ℕ) (elapsedMs remainingMs : ℤ) (durationMs : ℕ)
  | scheduledStatus (pin : ℕ) (startAt : Option ℕ) (durationMs : ℕ)
deriving DecidableEq, Repr

/-- Model of `get_timer_status` (lines 204-242): `None` without an
`active_timers` entry; the running shape when the entry carries
`start_time` and `running: True`; otherwise the scheduled shape. -/
def get_timer_status (s : MState) (p : ℕ) : Option TimerStatus :=
  match s.active_timers p with
  | none => none
  | some (TimerInfo.running st dm) =>
    let el := ticks_diff s.now st
    some (TimerStatus.runningStatus p el (max 0 ((dm : ℤ) - el)) dm)
  | some (TimerInfo.pending _ sa dm) =>
    some (TimerStatus.scheduledStatus p sa dm)

/-- Events of the exposure subsystem: the synchronous public calls, a
scheduler step resuming one task, and a clock advance (the tick clock
wraps at `TICKS_PERIOD`). -/
inductive Ev
  | start (p durMs : ℕ) (scheduled : Bool)
  | stop (p : ℕ)
  | run (tid : ℕ)
  | tick (d : ℕ)
deriving DecidableEq, Repr

/-- One step of the whole subsystem under an event. -/
def step (s : MState) (e : Ev) : MState :=
  match e with
  | Ev.start p d sch => (start_timer s p d sch).1
  | Ev.stop p => (stop_timer s p).1
  | Ev.run tid => runTask s tid
  | Ev.tick d => { s with now := (s.now + d) % TICKS_PERIOD }

/-- Run a list of events from a state. -/
def steps (s : MState) (es : List Ev) : MState := es.foldl step s

/-- States reachable from boot under any interleaving of calls, scheduler
steps and clock advances. -/
inductive Reach : MState → Prop
  | init : Reach initState
  | next : ∀ s e, Reach s → Reach (step s e)

/-- A task is live when it can still influence its pin: it has neither
terminated nor had its cancellation requested.  Once `Task.cancel()` has
been called, the spec's task-state model regards the task as `Cancelled`
(terminal): in the code such a task can never again command its relay ON —
its only remaining action is the OFF-on-cleanup path. -/
def live (T : TaskRec) : Prop := T.cancelRequested = false ∧ T.done = false

instance (T : TaskRec) : Decidable (live T) := by
  unfold live; infer_instance

/-- Reachability invariant of the exposure subsystem:

* `fresh`: task indices at or above `nextId` are unused;
* `relayLive`: a relay commanded ON belongs to a configured pin and is
  owned by a live task that is parked in its exposure sleep (it has issued
  its ON write and not yet its OFF write);
* `refsLive`: every `_task_refs` entry points to a live task on that pin;
* `liveRefs`: every live task is reachable through `_task_refs` under its
  pin — this is what guarantees `stop_timer` can always cancel it;
* `pendingLive` / `runningLive`: every `active_timers` entry witnesses a
  live task on that pin;
* `liveNewest`: a live task is the newest task ever created on its pin. -/
structure Inv (s : MState) : Prop where
  fresh : ∀ tid, s.nextId ≤ tid → s.tasks tid = none
  relayLive : ∀ p, s.relay p = true →
    validPin p = true ∧
      ∃ tid T, s.tasks tid = some T ∧ T.pin = p ∧ T.pc = TaskPC.sleepDur ∧ live T
  refsLive : ∀ p tid, s.task_refs p = some tid →
    ∃ T, s.tasks tid = some T ∧ T.pin = p ∧ live T
  liveRefs : ∀ tid T, s.tasks tid = some T → live T → s.task_refs T.pin = some tid
  pendingLive : ∀ p tid sa dm,
    s.active_timers p = some (TimerInfo.pending tid sa dm) →
      ∃ T, s.tasks tid = some T ∧ T.pin = p ∧ live T
  runningLive : ∀ p st dm, s.active_timers p = some (TimerInfo.running st dm) →
    ∃ tid T, s.tasks tid = some T ∧ T.pin = p ∧ live T
  liveNewest : ∀ tid T, s.tasks tid = some T → live T →
    ∀ tid2 T2, s.tasks tid2 = some T2 → tid < tid2 → T2.pin ≠ T.pin

/-- Ghost-real-time reading of the task body's scheduled wait (lines
71-76): `r0` is the unwrapped real time in milliseconds at which
`calculate_start_at` ran (so the stored tick value is
`ticks_add (r0 % TICKS_PERIOD) SYNC_DELAY_MS`), and `r` is the unwrapped
real time at which the task body wakes and computes
`wait_ms = ticks_diff(start_at_ms, now)`.  The body sleeps `wait_ms` when
positive, so the relay-ON write happens at the returned real time. -/
def scheduledOnReal (r0 r : ℕ) : ℕ :=
  let sa := ticks_add (r0 % TICKS_PERIOD) SYNC_DELAY_MS
  let w := ticks_diff sa (r % TICKS_PERIOD)
  if 0 < w then r + w.toNat else r

/-- Events allowed inside the status window of a freshly started timer on
pin `p` with task index `newTid`: anything except another call on the same
pin and except running the new task body. -/
def windowOK (p newTid : ℕ) : Ev → Bool
  | Ev.start q _ _ => q != p
  | Ev.stop q => q != p
  | Ev.run tid => tid != newTid
  | Ev.tick _ => true

/-- Trace state used by concrete instantiations: a timer started on pin 14
(immediate mode) whose task body has run to its exposure sleep, so the
relay is commanded ON and `active_timers[14]` holds the running record. -/
def exposureOnState : MState :=
  steps initState [Ev.start 14 5000 false, Ev.run 0]

/-- Trace state used by concrete instantiations: `exposureOnState` after
`stop_timer(14)`, so task 0 has a pending cancellation and the relay is
commanded OFF. -/
def stoppedState : MState := steps exposureOnState [Ev.stop 14]

/-- Trace exhibiting the status-window gap: a second `start_timer` on pin
14 cancels the running task 0 and installs the record of the new task 1;
the following scheduler step delivers the cancellation to task 0, whose
`finally` clause deletes `active_timers[14]` — the entry that belonged to
task 1 — while task 1 has not yet run. -/
def statusGapState : MState :=
  steps initState [Ev.start 14 5000 false, Ev.run 0, Ev.start 14 3000 false, Ev.run 0]

/-- Heating trace exhibiting the disable-during-read bug: enable, let the
loop start a sensor conversion, disable while the conversion is in flight
(this commands the relay OFF and clears the cache), and let the in-flight
read complete with a reading of 10 °C against the default 20 °C target. -/
def heatDisabledMidRead : HeatState :=
  (set_heating_enabled
    ((heatLoopStep ((set_heating_enabled initHeatState true).1)).1) false).1

/-! ## Projection lemmas for the elementary state operations -/

@[simp]
theorem set_relay_state_relay (s : MState) (p : ℕ) (b : Bool) (q : ℕ) :
    (set_relay_state s p b).relay q =
      if validPin p = true ∧ q = p then b else s.relay q := by
  unfold set_relay_state
  split <;> rename_i h <;> by_cases hq : q = p <;> simp [hq, h]

@[simp]
theorem set_relay_state_active (s : MState) (p : ℕ) (b : Bool) :
    (set_relay_state s p b).active_timers = s.active_timers := by
  unfold set_relay_state; split <;> rfl

@[simp]
theorem set_relay_state_refs (s : MState) (p : ℕ) (b : Bool) :
    (set_relay_state s p b).task_refs = s.task_refs := by
  unfold set_relay_state; split <;> rfl

@[simp]
theorem set_relay_state_tasks (s : MState) (p : ℕ) (b : Bool) :
    (set_relay_state s p b).tasks = s.tasks := by
  unfold set_relay_state; split <;> rfl

@[simp]
theorem set_relay_state_nextId (s : MState) (p : ℕ) (b : Bool) :
    (set_relay_state s p b).nextId = s.nextId := by
  unfold set_relay_state; split <;> rfl

@[simp]
theorem set_relay_state_now (s : MState) (p : ℕ) (b : Bool) :
    (set_relay_state s p b).now = s.now := by
  unfold set_relay_state; split <;> rfl

@[simp]
theorem cancelTask_relay (s : MState) (tid : ℕ) :
    (cancelTask s tid).relay = s.relay := by
  unfold cancelTask; split <;> first | rfl | (split <;> rfl)

@[simp]
theorem cancelTask_active (s : MState) (tid : ℕ) :
    (cancelTask s tid).active_timers = s.active_timers := by
  unfold cancelTask; split <;> first | rfl | (split <;> rfl)

@[simp]
theorem cancelTask_refs (s : MState) (tid : ℕ) :
    (cancelTask s tid).task_refs = s.task_refs := by
  unfold cancelTask; split <;> first | rfl | (split <;> rfl)

@[simp]
theorem cancelTask_nextId (s : MState) (tid : ℕ) :
    (cancelTask s tid).nextId = s.nextId := by
  unfold cancelTask; split <;> first | rfl | (split <;> rfl)

@[simp]
theorem cancelTask_now (s : MState) (tid : ℕ) :
    (cancelTask s tid).now = s.now := by
  unfold cancelTask; split <;> first | rfl | (split <;> rfl)

theorem cancelTask_tasks_char (s : MState) (tid i : ℕ) :
    (cancelTask s tid).tasks i = s.tasks i ∨
      (i = tid ∧ ∃ T, s.tasks tid = some T ∧ T.done = false ∧
        (cancelTask s tid).tasks i = some { T with cancelRequested := true }) := by
  unfold cancelTask
  cases hT : s.tasks tid with
  | none => left; rfl
  | some T =>
    by_cases hd : T.done
    · left; simp [hd]
    · by_cases hi : i = tid
      · right; subst hi; exact ⟨rfl, T, rfl, by simpa using hd, by simp [hd]⟩
      · left; simp [hd, hi]

theorem cancelTask_tasks_ne (s : MState) (tid i : ℕ) (h : i ≠ tid) :
    (cancelTask s tid).tasks i = s.tasks i := by
  rcases cancelTask_tasks_char s tid i with h1 | ⟨h1, _⟩
  · exact h1
  · exact absurd h1 h

@[simp]
theorem markDone_tasks (s : MState) (tid : ℕ) (T : TaskRec) (i : ℕ) :
    (markDone s tid T).tasks i =
      if i = tid then some { T with done := true } else s.tasks i := by
  unfold markDone; by_cases hi : i = tid <;> simp [hi]

@[simp]
theorem markDone_relay (s : MState) (tid : ℕ) (T : TaskRec) :
    (markDone s tid T).relay = s.relay := rfl

@[simp]
theorem markDone_active (s : MState) (tid : ℕ) (T : TaskRec) :
    (markDone s tid T).active_timers = s.active_timers := rfl

@[simp]
theorem markDone_refs (s : MState) (tid : ℕ) (T : TaskRec) :
    (markDone s tid T).task_refs = s.task_refs := rfl

@[simp]
theorem markDone_nextId (s : MState) (tid : ℕ) (T : TaskRec) :
    (markDone s tid T).nextId = s.nextId := rfl

@[simp]
theorem markDone_now (s : MState) (tid : ℕ) (T : TaskRec) :
    (markDone s tid T).now = s.now := rfl

@[simp]
theorem finallyCleanup_active (s : MState) (tid p : ℕ) (q : ℕ) :
    (finallyCleanup s tid p).active_timers q =
      if q = p then none else s.active_timers q := by
  unfold finallyCleanup
  by_cases h : s.task_refs p = some tid <;> by_cases hq : q = p <;> simp [h, hq]

@[simp]
theorem finallyCleanup_refs (s : MState) (tid p : ℕ) (q : ℕ) :
    (finallyCleanup s tid p).task_refs q =
      if s.task_refs p = some tid ∧ q = p then none else s.task_refs q := by
  unfold finallyCleanup
  by_cases h : s.task_refs p = some tid <;> by_cases hq : q = p <;> simp [h, hq]

@[simp]
theorem finallyCleanup_relay (s : MState) (tid p : ℕ) :
    (finallyCleanup s tid p).relay = s.relay := by
  unfold finallyCleanup
  by_cases h : s.task_refs p = some tid <;> simp [h]

@[simp]
theorem finallyCleanup_tasks (s : MState) (tid p : ℕ) :
    (finallyCleanup s tid p).tasks = s.tasks := by
  unfold finallyCleanup
  by_cases h : s.task_refs p = some tid <;> simp [h]

@[simp]
theorem finallyCleanup_nextId (s : MState) (tid p : ℕ) :
    (finallyCleanup s tid p).nextId = s.nextId := by
  unfold finallyCleanup
  by_cases h : s.task_refs p = some tid <;> simp [h]

@[simp]
theorem finallyCleanup_now (s : MState) (tid p : ℕ) :
    (finallyCleanup s tid p).now = s.now := by
  unfold finallyCleanup
  by_cases h : s.task_refs p = some tid <;> simp [h]

@[simp]
theorem relayOnSegment_relay (s : MState) (tid : ℕ) (T : TaskRec) (q : ℕ) :
    (relayOnSegment s tid T).relay q =
      if validPin T.pin = true ∧ q = T.pin then true else s.relay q := by
  unfold relayOnSegment
  simp

@[simp]
theorem relayOnSegment_active (s : MState) (tid : ℕ) (T : TaskRec) (q : ℕ) :
    (relayOnSegment s tid T).active_timers q =
      if q = T.pin then some (TimerInfo.running s.now T.durationMs)
      else s.active_timers q := by
  unfold relayOnSegment
  simp

@[simp]
theorem relayOnSegment_refs (s : MState) (tid : ℕ) (T : TaskRec) :
    (relayOnSegment s tid T).task_refs = s.task_refs := by
  unfold relayOnSegment
  simp

@[simp]
theorem relayOnSegment_tasks (s : MState) (tid : ℕ) (T : TaskRec) (i : ℕ) :
    (relayOnSegment s tid T).tasks i =
      if i = tid then some { T with pc := TaskPC.sleepDur } else s.tasks i := by
  unfold relayOnSegment
  by_cases hi : i = tid <;> simp [hi]

@[simp]
theorem relayOnSegment_nextId (s : MState) (tid : ℕ) (T : TaskRec) :
    (relayOnSegment s tid T).nextId = s.nextId := by
  unfold relayOnSegment
  simp

@[simp]
theorem relayOnSegment_now (s : MState) (tid : ℕ) (T : TaskRec) :
    (relayOnSegment s tid T).now = s.now := by
  unfold relayOnSegment
  simp

/-! ## Field lemmas for `stop_timer` and `start_timer` -/

theorem stop_timer_refs (s : MState) (p q : ℕ) :
    (stop_timer s p).1.task_refs q = if q = p then none else s.task_refs q := by
  unfold stop_timer
  by_cases he : s.active_timers p = none ∧ s.task_refs p = none
  · by_cases hq : q = p <;> simp [he, he.2, hq]
  · simp only [he, if_false]
    rcases hr : s.task_refs p with _ | tid <;>
      rcases ha : s.active_timers p with _ | (⟨tid2, sa, dm⟩ | ⟨st, dm⟩) <;>
      by_cases hq : q = p <;>
      simp [hr, ha, hq]

theorem stop_timer_active (s : MState) (p q : ℕ) :
    (stop_timer s p).1.active_timers q = if q = p then none else s.active_timers q := by
  unfold stop_timer
  by_cases he : s.active_timers p = none ∧ s.task_refs p = none
  · by_cases hq : q = p <;> simp [he, he.1, hq]
  · simp only [he, if_false]
    rcases hr : s.task_refs p with _ | tid <;>
      rcases ha : s.active_timers p with _ | (⟨tid2, sa, dm⟩ | ⟨st, dm⟩) <;>
      by_cases hq : q = p <;>
      simp [hr, ha, hq]

theorem stop_timer_nextId (s : MState) (p : ℕ) :
    (stop_timer s p).1.nextId = s.nextId := by
  unfold stop_timer
  by_cases he : s.active_timers p = none ∧ s.task_refs p = none
  · simp [he]
  · simp only [he, if_false]
    rcases hr : s.task_refs p with _ | tid <;>
      rcases ha : s.active_timers p with _ | (⟨tid2, sa, dm⟩ | ⟨st, dm⟩) <;>
      simp [hr, ha]

theorem stop_timer_now (s : MState) (p : ℕ) :
    (stop_timer s p).1.now = s.now := by
  unfold stop_timer
  by_cases he : s.active_timers p = none ∧ s.task_refs p = none
  · simp [he]
  · simp only [he, if_false]
    rcases hr : s.task_refs p with _ | tid <;>
      rcases ha : s.active_timers p with _ | (⟨tid2, sa, dm⟩ | ⟨st, dm⟩) <;>
      simp [hr, ha]

theorem stop_timer_relay (s : MState) (p q : ℕ) :
    (stop_timer s p).1.relay q =
      if ¬(s.active_timers p = none ∧ s.task_refs p = none) ∧ validPin p = true ∧ q = p
      then false else s.relay q := by
  unfold stop_timer
  by_cases he : s.active_timers p = none ∧ s.task_refs p = none
  · simp [he]
  · simp only [he, if_false]
    rcases hr : s.task_refs p with _ | tid <;>
      rcases ha : s.active_timers p with _ | (⟨tid2, sa, dm⟩ | ⟨st, dm⟩) <;>
      by_cases hv : validPin p = true <;>
      by_cases hq : q = p <;>
      simp [hr, ha, hq, hv, he]

theorem stop_timer_ret (s : MState) (p : ℕ) :
    (stop_timer s p).2 = true ↔ ¬(s.active_timers p = none ∧ s.task_refs p = none) := by
  unfold stop_timer
  by_cases he : s.active_timers p = none ∧ s.task_refs p = none
  · simp [he]
  · simp only [he, if_false]
    rcases hr : s.task_refs p with _ | tid <;>
      rcases ha : s.active_timers p with _ | (⟨tid2, sa, dm⟩ | ⟨st, dm⟩) <;>
      simp [hr, ha, he]

theorem cancelTask_tasks_shape (s : MState) (a i : ℕ) :
    (cancelTask s a).tasks i = s.tasks i ∨
      ∃ T, s.tasks i = some T ∧ T.done = false ∧
        (cancelTask s a).tasks i = some { T with cancelRequested := true } := by
  rcases cancelTask_tasks_char s a i with h | ⟨hi, T, hT, hd, hres⟩
  · exact Or.inl h
  · subst hi; exact Or.inr ⟨T, hT, hd, hres⟩

theorem cancelTask_tasks_congr (s1 s2 : MState) (h : s1.tasks = s2.tasks) (tid : ℕ) :
    (cancelTask s1 tid).tasks = (cancelTask s2 tid).tasks := by
  unfold cancelTask
  rw [h]
  cases ht : s2.tasks tid with
  | none => simp [ht, h]
  | some T => by_cases hd : T.done <;> simp [ht, hd, h]

theorem cancelTask_tasks_shape2 (s : MState) (a b i : ℕ) :
    (cancelTask (cancelTask s a) b).tasks i = s.tasks i ∨
      ∃ T, s.tasks i = some T ∧ T.done = false ∧
        (cancelTask (cancelTask s a) b).tasks i = some { T with cancelRequested := true } := by
  rcases cancelTask_tasks_shape (cancelTask s a) b i with h2 | ⟨T2, hT2, hd2, hres2⟩
  · rcases cancelTask_tasks_shape s a i with h1 | ⟨T1, hT1, hd1, hres1⟩
    · exact Or.inl (h2.trans h1)
    · exact Or.inr ⟨T1, hT1, hd1, h2.trans hres1⟩
  · rcases cancelTask_tasks_shape s a i with h1 | ⟨T1, hT1, hd1, hres1⟩
    · rw [h1] at hT2
      exact Or.inr ⟨T2, hT2, hd2, hres2⟩
    · rw [hres1] at hT2
      cases hT2
      exact Or.inr ⟨T1, hT1, hd1, hres2⟩

theorem cancelTask_tasks_shape_of (s0 s : MState) (a b i : ℕ)
    (h : s0.tasks = (cancelTask s a).tasks) :
    (cancelTask s0 b).tasks i = s.tasks i ∨
      ∃ T, s.tasks i = some T ∧ T.done = false ∧
        (cancelTask s0 b).tasks i = some { T with cancelRequested := true } := by
  have hc := cancelTask_tasks_congr s0 (cancelTask s a) h b
  rw [hc]
  exact cancelTask_tasks_shape2 s a b i

theorem stop_timer_tasks_shape (s : MState) (p i : ℕ) :
    (stop_timer s p).1.tasks i = s.tasks i ∨
      ∃ T, s.tasks i = some T ∧ T.done = false ∧
        (stop_timer s p).1.tasks i = some { T with cancelRequested := true } := by
  unfold stop_timer
  by_cases he : s.active_timers p = none ∧ s.task_refs p = none
  · left; simp [he]
  · simp only [he, if_false]
    rcases hr : s.task_refs p with _ | tid <;>
      rcases ha : s.active_timers p with _ | (⟨tid2, sa, dm⟩ | ⟨st, dm⟩) <;>
      simp only [cancelTask_active, cancelTask_refs, hr, ha]
    · left; rw [set_relay_state_tasks]
    · rw [set_relay_state_tasks]; exact cancelTask_tasks_shape s tid2 i
    · left; rw [set_relay_state_tasks]
    · rw [set_relay_state_tasks]; exact cancelTask_tasks_shape s tid i
    · rw [set_relay_state_tasks]
      exact cancelTask_tasks_shape_of _ s tid tid2 i rfl
    · rw [set_relay_state_tasks]; exact cancelTask_tasks_shape s tid i

theorem stop_timer_tasks_none (s : MState) (p i : ℕ) (h : s.tasks i = none) :
    (stop_timer s p).1.tasks i = none := by
  rcases stop_timer_tasks_shape s p i with h1 | ⟨T, hT, _, _⟩
  · rw [h1, h]
  · rw [h] at hT; cases hT

theorem stop_timer_tasks_done (s : MState) (p i : ℕ) (T : TaskRec)
    (h : s.tasks i = some T) (hd : T.done = true) :
    (stop_timer s p).1.tasks i = s.tasks i := by
  rcases stop_timer_tasks_shape s p i with h1 | ⟨T2, hT2, hd2, _⟩
  · exact h1
  · rw [h] at hT2; cases hT2; rw [hd] at hd2; cases hd2

theorem cancelTask_tasks_self (s : MState) (tid : ℕ) (T : TaskRec)
    (h : s.tasks tid = some T) (hd : T.done = false) :
    (cancelTask s tid).tasks tid = some { T with cancelRequested := true } := by
  unfold cancelTask
  simp [h, hd]

theorem cancelTask_preserves_flagged (s : MState) (b tid : ℕ) (T : TaskRec)
    (h : s.tasks tid = some { T with cancelRequested := true }) :
    (cancelTask s b).tasks tid = some { T with cancelRequested := true } := by
  rcases cancelTask_tasks_char s b tid with h1 | ⟨hi, T1, hT1, hd1, hres⟩
  · rw [h1, h]
  · subst hi
    rw [h] at hT1
    cases hT1
    exact hres

theorem stop_cancels_refs (s : MState) (p tid : ℕ) (T : TaskRec)
    (hr : s.task_refs p = some tid) (h : s.tasks tid = some T) (hd : T.done = false) :
    (stop_timer s p).1.tasks tid = some { T with cancelRequested := true } := by
  unfold stop_timer
  by_cases he : s.active_timers p = none ∧ s.task_refs p = none
  · rw [he.2] at hr; cases hr
  · simp only [he, if_false]
    rcases ha : s.active_timers p with _ | (⟨tid2, sa, dm⟩ | ⟨st, dm⟩) <;>
      simp only [cancelTask_active, cancelTask_refs, hr, ha] <;>
      rw [set_relay_state_tasks]
    · exact cancelTask_tasks_self s tid T h hd
    · exact cancelTask_preserves_flagged _ tid2 tid T (cancelTask_tasks_self s tid T h hd)
    · exact cancelTask_tasks_self s tid T h hd

theorem stop_timer_tasks_pin_ne (s : MState) (hInv : Inv s) (p i : ℕ) (T : TaskRec)
    (h : s.tasks i = some T) (hne : T.pin ≠ p) :
    (stop_timer s p).1.tasks i = s.tasks i := by
  unfold stop_timer
  by_cases he : s.active_timers p = none ∧ s.task_refs p = none
  · simp [he]
  · simp only [he, if_false]
    rcases hr : s.task_refs p with _ | tid <;>
      rcases ha : s.active_timers p with _ | (⟨tid2, sa, dm⟩ | ⟨st, dm⟩) <;>
      simp only [cancelTask_active, cancelTask_refs, hr, ha] <;>
      rw [set_relay_state_tasks]
    · obtain ⟨T2, hT2, hpin2, _⟩ := hInv.pendingLive p tid2 sa dm ha
      have hi2 : i ≠ tid2 := by
        intro hh
        subst hh
        rw [h] at hT2
        cases hT2
        exact hne hpin2
      exact cancelTask_tasks_ne s tid2 i hi2
    · obtain ⟨T1, hT1, hpin1, _⟩ := hInv.refsLive p tid hr
      have hi1 : i ≠ tid := by
        intro hh
        subst hh
        rw [h] at hT1
        cases hT1
        exact hne hpin1
      exact cancelTask_tasks_ne s tid i hi1
    · obtain ⟨T1, hT1, hpin1, _⟩ := hInv.refsLive p tid hr
      obtain ⟨T2, hT2, hpin2, _⟩ := hInv.pendingLive p tid2 sa dm ha
      have hi1 : i ≠ tid := by
        intro hh
        subst hh
        rw [h] at hT1
        cases hT1
        exact hne hpin1
      have hi2 : i ≠ tid2 := by
        intro hh
        subst hh
        rw [h] at hT2
        cases hT2
        exact hne hpin2
      have step1 := cancelTask_tasks_ne s tid i hi1
      have step2 := cancelTask_tasks_ne
        { relay := (cancelTask s tid).relay, active_timers := s.active_timers,
          task_refs := fun q => if q = p then none else s.task_refs q,
          tasks := (cancelTask s tid).tasks,
          nextId := (cancelTask s tid).nextId, now := (cancelTask s tid).now }
        tid2 i hi2
      exact step2.trans step1
    · obtain ⟨T1, hT1, hpin1, _⟩ := hInv.refsLive p tid hr
      have hi1 : i ≠ tid := by
        intro hh
        subst hh
        rw [h] at hT1
        cases hT1
        exact hne hpin1
      exact cancelTask_tasks_ne s tid i hi1

theorem start_timer_refs (s : MState) (p d : ℕ) (b : Bool) (q : ℕ) :
    (start_timer s p d b).1.task_refs q =
      if q = p then some s.nextId else s.task_refs q := by
  unfold start_timer
  by_cases hq : q = p <;>
    simp [hq, stop_timer_refs, stop_timer_nextId]

theorem start_timer_active (s : MState) (p d : ℕ) (b : Bool) (q : ℕ) :
    (start_timer s p d b).1.active_timers q =
      if q = p then
        some (TimerInfo.pending s.nextId
          (if b then some (ticks_add s.now SYNC_DELAY_MS) else none) d)
      else s.active_timers q := by
  unfold start_timer calculate_start_at
  by_cases hq : q = p <;>
    simp [hq, stop_timer_active, stop_timer_nextId, stop_timer_now]

theorem start_timer_tasks (s : MState) (p d : ℕ) (b : Bool) (i : ℕ) :
    (start_timer s p d b).1.tasks i =
      if i = s.nextId then
        some { pin := p, durationMs := d,
               startAt := if b then some (ticks_add s.now SYNC_DELAY_MS) else none,
               pc := TaskPC.created, cancelRequested := false, done := false }
      else (stop_timer s p).1.tasks i := by
  unfold start_timer calculate_start_at
  by_cases hi : i = s.nextId <;>
    simp [hi, stop_timer_nextId, stop_timer_now]

theorem start_timer_relay (s : MState) (p d : ℕ) (b : Bool) :
    (start_timer s p d b).1.relay = (stop_timer s p).1.relay := rfl

theorem start_timer_nextId (s : MState) (p d : ℕ) (b : Bool) :
    (start_timer s p d b).1.nextId = s.nextId + 1 := by
  unfold start_timer
  simp [stop_timer_nextId]

theorem start_timer_now (s : MState) (p d : ℕ) (b : Bool) :
    (start_timer s p d b).1.now = s.now := by
  unfold start_timer
  simp [stop_timer_now]

theorem start_timer_ret (s : MState) (p d : ℕ) (b : Bool) :
    (start_timer s p d b).2 =
      { pin := p, durationMs := d,
        start_at := if b then some (ticks_add s.now SYNC_DELAY_MS) else none,
        sync_delay_ms := SYNC_DELAY_MS } := by
  unfold start_timer calculate_start_at
  simp [stop_timer_now]

/-! ## Invariant preservation -/

theorem inv_markDone_cancelled (s : MState) (tid0 : ℕ) (T0 : TaskRec) (hI : Inv s)
    (hT0 : s.tasks tid0 = some T0) (hc : T0.cancelRequested = true) :
    Inv (markDone s tid0 T0) := by
  have hwne : ∀ tid T, s.tasks tid = some T → live T → tid ≠ tid0 := by
    intro tid T hT hl he
    subst he
    rw [hT0] at hT
    injection hT with hT
    subst hT
    have h1 : T0.cancelRequested = false := hl.1
    rw [hc] at h1
    cases h1
  constructor
  · intro tid h
    rw [markDone_nextId] at h
    rw [markDone_tasks]
    have hn : s.tasks tid = none := hI.fresh tid h
    have hne : tid ≠ tid0 := by
      intro hh; subst hh; rw [hT0] at hn; cases hn
    rw [if_neg hne]
    exact hn
  · intro q hq
    rw [markDone_relay] at hq
    obtain ⟨hv, tid, T, hT, hpin, hpc, hl⟩ := hI.relayLive q hq
    refine ⟨hv, tid, T, ?_, hpin, hpc, hl⟩
    rw [markDone_tasks, if_neg (hwne tid T hT hl)]
    exact hT
  · intro q tid h
    rw [markDone_refs] at h
    obtain ⟨T, hT, hpin, hl⟩ := hI.refsLive q tid h
    refine ⟨T, ?_, hpin, hl⟩
    rw [markDone_tasks, if_neg (hwne tid T hT hl)]
    exact hT
  · intro tid T hT hl
    rw [markDone_tasks] at hT
    by_cases hne : tid = tid0
    · rw [if_pos hne] at hT
      injection hT with hT
      subst hT
      exact absurd hl.2 (by simp)
    · rw [if_neg hne] at hT
      rw [markDone_refs]
      exact hI.liveRefs tid T hT hl
  · intro q tid sa dm h
    rw [markDone_active] at h
    obtain ⟨T, hT, hpin, hl⟩ := hI.pendingLive q tid sa dm h
    refine ⟨T, ?_, hpin, hl⟩
    rw [markDone_tasks, if_neg (hwne tid T hT hl)]
    exact hT
  · intro q st dm h
    rw [markDone_active] at h
    obtain ⟨tid, T, hT, hpin, hl⟩ := hI.runningLive q st dm h
    refine ⟨tid, T, ?_, hpin, hl⟩
    rw [markDone_tasks, if_neg (hwne tid T hT hl)]
    exact hT
  · intro tid T hT hl tid2 T2 hT2 hlt
    rw [markDone_tasks] at hT hT2
    by_cases hne : tid = tid0
    · rw [if_pos hne] at hT
      injection hT with hT
      subst hT
      exact absurd hl.2 (by simp)
    · rw [if_neg hne] at hT
      by_cases hne2 : tid2 = tid0
      · rw [if_pos hne2] at hT2
        injection hT2 with hT2
        subst hT2
        exact hI.liveNewest tid T hT hl tid2 T0 (by rw [hne2]; exact hT0) hlt
      · rw [if_neg hne2] at hT2
        exact hI.liveNewest tid T hT hl tid2 T2 hT2 hlt

theorem inv_death (s : MState) (tid0 : ℕ) (T0 : TaskRec) (hI : Inv s)
    (hT0 : s.tasks tid0 = some T0) :
    Inv (markDone (finallyCleanup (set_relay_state s T0.pin false) tid0 T0.pin) tid0 T0) := by
  have hrel : ∀ q,
      (markDone (finallyCleanup (set_relay_state s T0.pin false) tid0 T0.pin) tid0 T0).relay q
        = if validPin T0.pin = true ∧ q = T0.pin then false else s.relay q := by
    intro q
    rw [markDone_relay, finallyCleanup_relay, set_relay_state_relay]
  have hact : ∀ q,
      (markDone (finallyCleanup (set_relay_state s T0.pin false) tid0 T0.pin) tid0 T0).active_timers q
        = if q = T0.pin then none else s.active_timers q := by
    intro q
    rw [markDone_active, finallyCleanup_active, set_relay_state_active]
  have href : ∀ q,
      (markDone (finallyCleanup (set_relay_state s T0.pin false) tid0 T0.pin) tid0 T0).task_refs q
        = if s.task_refs T0.pin = some tid0 ∧ q = T0.pin then none else s.task_refs q := by
    intro q
    rw [markDone_refs, finallyCleanup_refs, set_relay_state_refs]
  have htks : ∀ i,
      (markDone (finallyCleanup (set_relay_state s T0.pin false) tid0 T0.pin) tid0 T0).tasks i
        = if i = tid0 then some { T0 with done := true } else s.tasks i := by
    intro i
    rw [markDone_tasks, finallyCleanup_tasks, set_relay_state_tasks]
  have hnid :
      (markDone (finallyCleanup (set_relay_state s T0.pin false) tid0 T0.pin) tid0 T0).nextId
        = s.nextId := by
    rw [markDone_nextId, finallyCleanup_nextId, set_relay_state_nextId]
  constructor
  · intro tid h
    rw [hnid] at h
    rw [htks]
    have hn : s.tasks tid = none := hI.fresh tid h
    have hne : tid ≠ tid0 := by
      intro hh; subst hh; rw [hT0] at hn; cases hn
    rw [if_neg hne]
    exact hn
  · intro q hq
    rw [hrel] at hq
    split at hq
    · cases hq
    · rename_i hcnd
      obtain ⟨hv, tid, T, hT, hpin, hpc, hl⟩ := hI.relayLive q hq
      have hqp : q ≠ T0.pin := by
        intro hh
        exact hcnd ⟨hh ▸ hv, hh⟩
      have hne : tid ≠ tid0 := by
        intro hh
        subst hh
        rw [hT0] at hT
        injection hT with hT
        subst hT
        exact hqp hpin.symm
      refine ⟨hv, tid, T, ?_, hpin, hpc, hl⟩
      rw [htks, if_neg hne]
      exact hT
  · intro q tid h
    rw [href] at h
    split at h
    · cases h
    · rename_i hcnd
      obtain ⟨T, hT, hpin, hl⟩ := hI.refsLive q tid h
      have hne : tid ≠ tid0 := by
        intro hh
        subst hh
        rw [hT0] at hT
        injection hT with hT
        subst hT
        exact hcnd ⟨hpin ▸ h, hpin.symm⟩
      refine ⟨T, ?_, hpin, hl⟩
      rw [htks, if_neg hne]
      exact hT
  · intro tid T hT hl
    rw [htks] at hT
    by_cases hne : tid = tid0
    · rw [if_pos hne] at hT
      injection hT with hT
      subst hT
      exact absurd hl.2 (by simp)
    · rw [if_neg hne] at hT
      have base := hI.liveRefs tid T hT hl
      rw [href, if_neg]
      · exact base
      · rintro ⟨ha, hb⟩
        rw [hb] at base
        rw [base] at ha
        injection ha with ha
        exact hne ha
  · intro q tid sa dm h
    rw [hact] at h
    split at h
    · cases h
    · rename_i hqp
      obtain ⟨T, hT, hpin, hl⟩ := hI.pendingLive q tid sa dm h
      have hne : tid ≠ tid0 := by
        intro hh
        subst hh
        rw [hT0] at hT
        injection hT with hT
        subst hT
        exact hqp hpin.symm
      refine ⟨T, ?_, hpin, hl⟩
      rw [htks, if_neg hne]
      exact hT
  · intro q st dm h
    rw [hact] at h
    split at h
    · cases h
    · rename_i hqp
      obtain ⟨tid, T, hT, hpin, hl⟩ := hI.runningLive q st dm h
      have hne : tid ≠ tid0 := by
        intro hh
        subst hh
        rw [hT0] at hT
        injection hT with hT
        subst hT
        exact hqp hpin.symm
      refine ⟨tid, T, ?_, hpin, hl⟩
      rw [htks, if_neg hne]
      exact hT
  · intro tid T hT hl tid2 T2 hT2 hlt
    rw [htks] at hT hT2
    by_cases hne : tid = tid0
    · rw [if_pos hne] at hT
      injection hT with hT
      subst hT
      exact absurd hl.2 (by simp)
    · rw [if_neg hne] at hT
      by_cases hne2 : tid2 = tid0
      · rw [if_pos hne2] at hT2
        injection hT2 with hT2
        subst hT2
        exact hI.liveNewest tid T hT hl tid2 T0 (by rw [hne2]; exact hT0) hlt
      · rw [if_neg hne2] at hT2
        exact hI.liveNewest tid T hT hl tid2 T2 hT2 hlt

theorem inv_pcWait (s : MState) (tid0 : ℕ) (T0 : TaskRec) (hI : Inv s)
    (hT0 : s.tasks tid0 = some T0) (hl0 : live T0) (hpc0 : T0.pc ≠ TaskPC.sleepDur) :
    Inv { s with
          tasks := fun i =>
            if i = tid0 then some { T0 with pc := TaskPC.waitStart } else s.tasks i } := by
  have htks : ∀ i,
      ({ s with
         tasks := fun i =>
           if i = tid0 then some { T0 with pc := TaskPC.waitStart } else s.tasks i } :
        MState).tasks i
        = if i = tid0 then some { T0 with pc := TaskPC.waitStart } else s.tasks i := by
    intro i; rfl
  constructor
  · intro tid h
    rw [htks]
    have hn : s.tasks tid = none := hI.fresh tid h
    have hne : tid ≠ tid0 := by
      intro hh; subst hh; rw [hT0] at hn; cases hn
    rw [if_neg hne]
    exact hn
  · intro q hq
    obtain ⟨hv, tid, T, hT, hpin, hpc, hl⟩ := hI.relayLive q hq
    have hne : tid ≠ tid0 := by
      intro hh
      subst hh
      rw [hT0] at hT
      injection hT with hT
      subst hT
      exact hpc0 hpc
    refine ⟨hv, tid, T, ?_, hpin, hpc, hl⟩
    rw [htks, if_neg hne]
    exact hT
  · intro q tid h
    obtain ⟨T, hT, hpin, hl⟩ := hI.refsLive q tid h
    by_cases hne : tid = tid0
    · rw [hne] at hT
      rw [hT0] at hT
      injection hT with hT
      subst hT
      refine ⟨{ T0 with pc := TaskPC.waitStart }, ?_, hpin, hl⟩
      rw [htks, if_pos hne]
    · refine ⟨T, ?_, hpin, hl⟩
      rw [htks, if_neg hne]
      exact hT
  · intro tid T hT hl
    rw [htks] at hT
    by_cases hne : tid = tid0
    · rw [if_pos hne] at hT
      injection hT with hT
      subst hT
      have hbase := hI.liveRefs tid0 T0 hT0 hl0
      rw [← hne] at hbase
      exact hbase
    · rw [if_neg hne] at hT
      exact hI.liveRefs tid T hT hl
  · intro q tid sa dm h
    obtain ⟨T, hT, hpin, hl⟩ := hI.pendingLive q tid sa dm h
    by_cases hne : tid = tid0
    · rw [hne] at hT
      rw [hT0] at hT
      injection hT with hT
      subst hT
      refine ⟨{ T0 with pc := TaskPC.waitStart }, ?_, hpin, hl⟩
      rw [htks, if_pos hne]
    · refine ⟨T, ?_, hpin, hl⟩
      rw [htks, if_neg hne]
      exact hT
  · intro q st dm h
    obtain ⟨tid, T, hT, hpin, hl⟩ := hI.runningLive q st dm h
    by_cases hne : tid = tid0
    · rw [hne] at hT
      rw [hT0] at hT
      injection hT with hT
      subst hT
      refine ⟨tid, { T0 with pc := TaskPC.waitStart }, ?_, hpin, hl⟩
      rw [htks, if_pos hne]
    · refine ⟨tid, T, ?_, hpin, hl⟩
      rw [htks, if_neg hne]
      exact hT
  · intro tid T hT hl tid2 T2 hT2 hlt
    rw [htks] at hT hT2
    by_cases hne : tid = tid0
    · rw [if_pos hne] at hT
      injection hT with hT
      subst hT
      by_cases hne2 : tid2 = tid0
      · exact absurd hlt (by rw [hne, hne2]; exact lt_irrefl tid0)
      · rw [if_neg hne2] at hT2
        exact hI.liveNewest tid T0 (by rw [hne]; exact hT0) hl tid2 T2 hT2 hlt
    · rw [if_neg hne] at hT
      by_cases hne2 : tid2 = tid0
      · rw [if_pos hne2] at hT2
        injection hT2 with hT2
        subst hT2
        exact hI.liveNewest tid T hT hl tid2 T0 (by rw [hne2]; exact hT0) hlt
      · rw [if_neg hne2] at hT2
        exact hI.liveNewest tid T hT hl tid2 T2 hT2 hlt

theorem inv_relayOn (s : MState) (tid0 : ℕ) (T0 : TaskRec) (hI : Inv s)
    (hT0 : s.tasks tid0 = some T0) (hl0 : live T0) (hpc0 : T0.pc ≠ TaskPC.sleepDur) :
    Inv (relayOnSegment s tid0 T0) := by
  constructor
  · intro tid h
    rw [relayOnSegment_nextId] at h
    rw [relayOnSegment_tasks]
    have hn : s.tasks tid = none := hI.fresh tid h
    have hne : tid ≠ tid0 := by
      intro hh; subst hh; rw [hT0] at hn; cases hn
    rw [if_neg hne]
    exact hn
  · intro q hq
    rw [relayOnSegment_relay] at hq
    split at hq
    · rename_i hcnd
      refine ⟨hcnd.2 ▸ hcnd.1, tid0, { T0 with pc := TaskPC.sleepDur }, ?_, ?_, rfl, hl0⟩
      · rw [relayOnSegment_tasks, if_pos rfl]
      · exact hcnd.2.symm
    · rename_i hcnd
      obtain ⟨hv, tid, T, hT, hpin, hpc, hl⟩ := hI.relayLive q hq
      have hne : tid ≠ tid0 := by
        intro hh
        rw [hh] at hT
        rw [hT0] at hT
        injection hT with hT
        subst hT
        exact hpc0 hpc
      refine ⟨hv, tid, T, ?_, hpin, hpc, hl⟩
      rw [relayOnSegment_tasks, if_neg hne]
      exact hT
  · intro q tid h
    rw [relayOnSegment_refs] at h
    obtain ⟨T, hT, hpin, hl⟩ := hI.refsLive q tid h
    by_cases hne : tid = tid0
    · rw [hne] at hT
      rw [hT0] at hT
      injection hT with hT
      subst hT
      refine ⟨{ T0 with pc := TaskPC.sleepDur }, ?_, hpin, hl⟩
      rw [relayOnSegment_tasks, if_pos hne]
    · refine ⟨T, ?_, hpin, hl⟩
      rw [relayOnSegment_tasks, if_neg hne]
      exact hT
  · intro tid T hT hl
    rw [relayOnSegment_tasks] at hT
    by_cases hne : tid = tid0
    · rw [if_pos hne] at hT
      injection hT with hT
      subst hT
      have hbase := hI.liveRefs tid0 T0 hT0 hl0
      rw [← hne] at hbase
      rw [relayOnSegment_refs]
      exact hbase
    · rw [if_neg hne] at hT
      rw [relayOnSegment_refs]
      exact hI.liveRefs tid T hT hl
  · intro q tid sa dm h
    rw [relayOnSegment_active] at h
    split at h
    · simp at h
    · rename_i hqp
      obtain ⟨T, hT, hpin, hl⟩ := hI.pendingLive q tid sa dm h
      by_cases hne : tid = tid0
      · rw [hne] at hT
        rw [hT0] at hT
        injection hT with hT
        subst hT
        refine ⟨{ T0 with pc := TaskPC.sleepDur }, ?_, hpin, hl⟩
        rw [relayOnSegment_tasks, if_pos hne]
      · refine ⟨T, ?_, hpin, hl⟩
        rw [relayOnSegment_tasks, if_neg hne]
        exact hT
  · intro q st dm h
    rw [relayOnSegment_active] at h
    split at h
    · rename_i hqp
      refine ⟨tid0, { T0 with pc := TaskPC.sleepDur }, ?_, ?_, hl0⟩
      · rw [relayOnSegment_tasks, if_pos rfl]
      · exact hqp.symm
    · rename_i hqp
      obtain ⟨tid, T, hT, hpin, hl⟩ := hI.runningLive q st dm h
      by_cases hne : tid = tid0
      · rw [hne] at hT
        rw [hT0] at hT
        injection hT with hT
        subst hT
        refine ⟨tid, { T0 with pc := TaskPC.sleepDur }, ?_, hpin, hl⟩
        rw [relayOnSegment_tasks, if_pos hne]
      · refine ⟨tid, T, ?_, hpin, hl⟩
        rw [relayOnSegment_tasks, if_neg hne]
        exact hT
  · intro tid T hT hl tid2 T2 hT2 hlt
    rw [relayOnSegment_tasks] at hT hT2
    by_cases hne : tid = tid0
    · rw [if_pos hne] at hT
      injection hT with hT
      subst hT
      by_cases hne2 : tid2 = tid0
      · exact absurd hlt (by rw [hne, hne2]; exact lt_irrefl tid0)
      · rw [if_neg hne2] at hT2
        exact hI.liveNewest tid T0 (by rw [hne]; exact hT0) hl tid2 T2 hT2 hlt
    · rw [if_neg hne] at hT
      by_cases hne2 : tid2 = tid0
      · rw [if_pos hne2] at hT2
        injection hT2 with hT2
        subst hT2
        exact hI.liveNewest tid T hT hl tid2 T0 (by rw [hne2]; exact hT0) hlt
      · rw [if_neg hne2] at hT2
        exact hI.liveNewest tid T hT hl tid2 T2 hT2 hlt

theorem stop_timer_early (s : MState) (p : ℕ)
    (he : s.active_timers p = none ∧ s.task_refs p = none) :
    (stop_timer s p).1 = s := by
  unfold stop_timer
  simp [he]

theorem inv_stop (s : MState) (p : ℕ) (hI : Inv s) : Inv (stop_timer s p).1 := by
  constructor
  · intro tid h
    rw [stop_timer_nextId] at h
    exact stop_timer_tasks_none s p tid (hI.fresh tid h)
  · intro q hq
    rw [stop_timer_relay] at hq
    split at hq
    · cases hq
    · rename_i hcnd
      obtain ⟨hv, tid, T, hT, hpin, hpc, hl⟩ := hI.relayLive q hq
      by_cases hqp : q = p
      · subst hqp
        by_cases he : s.active_timers q = none ∧ s.task_refs q = none
        · rw [stop_timer_early s q he]
          exact ⟨hv, tid, T, hT, hpin, hpc, hl⟩
        · exact absurd ⟨he, hv, rfl⟩ hcnd
      · refine ⟨hv, tid, T, ?_, hpin, hpc, hl⟩
        rw [stop_timer_tasks_pin_ne s hI p tid T hT (by rw [hpin]; exact hqp)]
        exact hT
  · intro q tid h
    rw [stop_timer_refs] at h
    split at h
    · cases h
    · rename_i hqp
      obtain ⟨T, hT, hpin, hl⟩ := hI.refsLive q tid h
      refine ⟨T, ?_, hpin, hl⟩
      rw [stop_timer_tasks_pin_ne s hI p tid T hT (by rw [hpin]; exact hqp)]
      exact hT
  · intro tid T hT hl
    rcases stop_timer_tasks_shape s p tid with hsh | ⟨T0, hT0, hd0, hres⟩
    · rw [hsh] at hT
      have hr := hI.liveRefs tid T hT hl
      rw [stop_timer_refs]
      by_cases hpin : T.pin = p
      · exfalso
        rw [hpin] at hr
        have hflag := stop_cancels_refs s p tid T hr hT hl.2
        rw [hsh, hT] at hflag
        injection hflag with hflag
        have hcr : T.cancelRequested = true := by rw [hflag]
        rw [hl.1] at hcr
        cases hcr
      · rw [if_neg hpin]
        exact hr
    · rw [hres] at hT
      injection hT with hT
      rw [← hT] at hl
      exact absurd hl.1 (by simp)
  · intro q tid sa dm h
    rw [stop_timer_active] at h
    split at h
    · cases h
    · rename_i hqp
      obtain ⟨T, hT, hpin, hl⟩ := hI.pendingLive q tid sa dm h
      refine ⟨T, ?_, hpin, hl⟩
      rw [stop_timer_tasks_pin_ne s hI p tid T hT (by rw [hpin]; exact hqp)]
      exact hT
  · intro q st dm h
    rw [stop_timer_active] at h
    split at h
    · cases h
    · rename_i hqp
      obtain ⟨tid, T, hT, hpin, hl⟩ := hI.runningLive q st dm h
      refine ⟨tid, T, ?_, hpin, hl⟩
      rw [stop_timer_tasks_pin_ne s hI p tid T hT (by rw [hpin]; exact hqp)]
      exact hT
  · intro tid T hT hl tid2 T2 hT2 hlt
    rcases stop_timer_tasks_shape s p tid with hsh | ⟨T0, hT0, hd0, hres⟩
    · rw [hsh] at hT
      have hlive : live T := hl
      rcases stop_timer_tasks_shape s p tid2 with hsh2 | ⟨T02, hT02, hd02, hres2⟩
      · rw [hsh2] at hT2
        exact hI.liveNewest tid T hT hlive tid2 T2 hT2 hlt
      · rw [hres2] at hT2
        injection hT2 with hT2
        rw [← hT2]
        exact hI.liveNewest tid T hT hlive tid2 T02 hT02 hlt
    · rw [hres] at hT
      injection hT with hT
      rw [← hT] at hl
      exact absurd hl.1 (by simp)

theorem inv_start (s : MState) (p d : ℕ) (b : Bool) (hI : Inv s) :
    Inv (start_timer s p d b).1 := by
  have hI1 : Inv (stop_timer s p).1 := inv_stop s p hI
  have hrefs1 : (stop_timer s p).1.task_refs p = none := by
    rw [stop_timer_refs]; simp
  have hnolive : ∀ tid T, (stop_timer s p).1.tasks tid = some T → live T → T.pin ≠ p := by
    intro tid T hT hl hpin
    have hr := hI1.liveRefs tid T hT hl
    rw [hpin, hrefs1] at hr
    cases hr
  have hnext1 : (stop_timer s p).1.nextId = s.nextId := stop_timer_nextId s p
  have hfreshS : ∀ tid, s.nextId ≤ tid → (stop_timer s p).1.tasks tid = none := by
    intro tid h
    exact hI1.fresh tid (by rw [hnext1]; omega)
  have hneOf : ∀ tid T, (stop_timer s p).1.tasks tid = some T → tid ≠ s.nextId := by
    intro tid T hT hh
    rw [hfreshS tid (by omega)] at hT
    cases hT
  constructor
  · intro tid h
    rw [start_timer_nextId] at h
    rw [start_timer_tasks]
    have hne : tid ≠ s.nextId := by omega
    rw [if_neg hne]
    exact hfreshS tid (by omega)
  · intro q hq
    rw [start_timer_relay] at hq
    obtain ⟨hv, tid, T, hT, hpin, hpc, hl⟩ := hI1.relayLive q hq
    refine ⟨hv, tid, T, ?_, hpin, hpc, hl⟩
    rw [start_timer_tasks, if_neg (hneOf tid T hT)]
    exact hT
  · intro q tid h
    rw [start_timer_refs] at h
    split at h
    · rename_i hqp
      injection h with h
      refine ⟨{ pin := p, durationMs := d,
                startAt := if b then some (ticks_add s.now SYNC_DELAY_MS) else none,
                pc := TaskPC.created, cancelRequested := false, done := false }, ?_, ?_, ?_⟩
      · rw [start_timer_tasks, if_pos h.symm]
      · exact hqp.symm
      · exact ⟨rfl, rfl⟩
    · rename_i hqp
      have h1 : (stop_timer s p).1.task_refs q = some tid := by
        rw [stop_timer_refs, if_neg hqp]; exact h
      obtain ⟨T, hT, hpin, hl⟩ := hI1.refsLive q tid h1
      refine ⟨T, ?_, hpin, hl⟩
      rw [start_timer_tasks, if_neg (hneOf tid T hT)]
      exact hT
  · intro tid T hT hl
    rw [start_timer_tasks] at hT
    by_cases hne : tid = s.nextId
    · rw [if_pos hne] at hT
      injection hT with hT
      subst hT
      rw [start_timer_refs, if_pos rfl, hne]
    · rw [if_neg hne] at hT
      have hr := hI1.liveRefs tid T hT hl
      have hpne : ¬ T.pin = p := hnolive tid T hT hl
      rw [stop_timer_refs, if_neg hpne] at hr
      rw [start_timer_refs, if_neg hpne]
      exact hr
  · intro q tid sa dm h
    rw [start_timer_active] at h
    split at h
    · rename_i hqp
      injection h with h
      injection h with h1 h2 h3
      refine ⟨{ pin := p, durationMs := d,
                startAt := if b then some (ticks_add s.now SYNC_DELAY_MS) else none,
                pc := TaskPC.created, cancelRequested := false, done := false }, ?_, ?_, ?_⟩
      · rw [start_timer_tasks, if_pos h1.symm]
      · exact hqp.symm
      · exact ⟨rfl, rfl⟩
    · rename_i hqp
      have h1 : (stop_timer s p).1.active_timers q = some (TimerInfo.pending tid sa dm) := by
        rw [stop_timer_active, if_neg hqp]; exact h
      obtain ⟨T, hT, hpin, hl⟩ := hI1.pendingLive q tid sa dm h1
      refine ⟨T, ?_, hpin, hl⟩
      rw [start_timer_tasks, if_neg (hneOf tid T hT)]
      exact hT
  · intro q st dm h
    rw [start_timer_active] at h
    split at h
    · simp at h
    · rename_i hqp
      have h1 : (stop_timer s p).1.active_timers q = some (TimerInfo.running st dm) := by
        rw [stop_timer_active, if_neg hqp]; exact h
      obtain ⟨tid, T, hT, hpin, hl⟩ := hI1.runningLive q st dm h1
      refine ⟨tid, T, ?_, hpin, hl⟩
      rw [start_timer_tasks, if_neg (hneOf tid T hT)]
      exact hT
  · intro tid T hT hl tid2 T2 hT2 hlt
    rw [start_timer_tasks] at hT hT2
    by_cases hne : tid = s.nextId
    · rw [if_pos hne] at hT
      by_cases hne2 : tid2 = s.nextId
      · exact absurd hlt (by rw [hne, hne2]; exact lt_irrefl s.nextId)
      · rw [if_neg hne2] at hT2
        exfalso
        rw [hfreshS tid2 (by omega)] at hT2
        cases hT2
    · rw [if_neg hne] at hT
      by_cases hne2 : tid2 = s.nextId
      · rw [if_pos hne2] at hT2
        injection hT2 with hT2
        rw [← hT2]
        intro hpin
        exact hnolive tid T hT hl hpin.symm
      · rw [if_neg hne2] at hT2
        exact hI1.liveNewest tid T hT hl tid2 T2 hT2 hlt

theorem inv_runTask (s : MState) (tid0 : ℕ) (hI : Inv s) : Inv (runTask s tid0) := by
  unfold runTask
  cases hT0 : s.tasks tid0 with
  | none => exact hI
  | some T0 =>
    dsimp only
    by_cases hd : T0.done = true
    · rw [if_pos hd]
      exact hI
    · rw [if_neg hd]
      by_cases hc : T0.cancelRequested = true
      · rw [if_pos hc]
        cases hpc : T0.pc with
        | created => exact inv_markDone_cancelled s tid0 T0 hI hT0 hc
        | waitStart => exact inv_death s tid0 T0 hI hT0
        | sleepDur => exact inv_death s tid0 T0 hI hT0
      · rw [if_neg hc]
        have hl0 : live T0 := ⟨by simpa using hc, by simpa using hd⟩
        cases hpc : T0.pc with
        | created =>
          dsimp only
          cases hsa : T0.startAt with
          | some sa =>
            dsimp only
            by_cases hw : 0 < ticks_diff sa s.now
            · rw [if_pos hw, ← hsa]
              exact inv_pcWait s tid0 T0 hI hT0 hl0 (by rw [hpc]; simp)
            · rw [if_neg hw]
              exact inv_relayOn s tid0 T0 hI hT0 hl0 (by rw [hpc]; simp)
          | none => exact inv_relayOn s tid0 T0 hI hT0 hl0 (by rw [hpc]; simp)
        | waitStart => exact inv_relayOn s tid0 T0 hI hT0 hl0 (by rw [hpc]; simp)
        | sleepDur => exact inv_death s tid0 T0 hI hT0

theorem inv_tick (s : MState) (d : ℕ) (hI : Inv s) :
    Inv { s with now := (s.now + d) % TICKS_PERIOD } := by
  constructor
  · exact hI.fresh
  · exact hI.relayLive
  · exact hI.refsLive
  · exact hI.liveRefs
  · exact hI.pendingLive
  · exact hI.runningLive
  · exact hI.liveNewest

theorem inv_step (s : MState) (e : Ev) (hI : Inv s) : Inv (step s e) := by
  cases e with
  | start p durMs sch => exact inv_start s p durMs sch hI
  | stop p => exact inv_stop s p hI
  | run tid => exact inv_runTask s tid hI
  | tick d => exact inv_tick s d hI

theorem inv_init : Inv initState := by
  constructor
  · intro tid h; rfl
  · intro q hq; cases hq
  · intro q tid h; cases h
  · intro tid T hT hl; cases hT
  · intro q tid sa dm h; cases h
  · intro q st dm h; cases h
  · intro tid T hT hl tid2 T2 hT2 hlt; cases hT

theorem inv_reach (s : MState) (h : Reach s) : Inv s := by
  induction h with
  | init => exact inv_init
  | next s e hr ih => exact inv_step s e ih

/-! ## Characterization lemmas for `runTask` and `get_timer_status` -/

theorem death_relay (s : MState) (tid : ℕ) (T : TaskRec) (q : ℕ) :
    (markDone (finallyCleanup (set_relay_state s T.pin false) tid T.pin) tid T).relay q
      = if validPin T.pin = true ∧ q = T.pin then false else s.relay q := by
  rw [markDone_relay, finallyCleanup_relay, set_relay_state_relay]

theorem death_refs (s : MState) (tid : ℕ) (T : TaskRec) (q : ℕ) :
    (markDone (finallyCleanup (set_relay_state s T.pin false) tid T.pin) tid T).task_refs q
      = if s.task_refs T.pin = some tid ∧ q = T.pin then none else s.task_refs q := by
  rw [markDone_refs, finallyCleanup_refs, set_relay_state_refs]

theorem death_active (s : MState) (tid : ℕ) (T : TaskRec) (q : ℕ) :
    (markDone (finallyCleanup (set_relay_state s T.pin false) tid T.pin) tid T).active_timers q
      = if q = T.pin then none else s.active_timers q := by
  rw [markDone_active, finallyCleanup_active, set_relay_state_active]

theorem death_tasks (s : MState) (tid : ℕ) (T : TaskRec) (i : ℕ) :
    (markDone (finallyCleanup (set_relay_state s T.pin false) tid T.pin) tid T).tasks i
      = if i = tid then some { T with done := true } else s.tasks i := by
  rw [markDone_tasks, finallyCleanup_tasks, set_relay_state_tasks]

theorem runTask_none (s : MState) (tid : ℕ) (h : s.tasks tid = none) :
    runTask s tid = s := by
  unfold runTask
  rw [h]

theorem runTask_done (s : MState) (tid : ℕ) (T : TaskRec)
    (h : s.tasks tid = some T) (hd : T.done = true) :
    runTask s tid = s := by
  unfold runTask
  rw [h]
  dsimp only
  rw [if_pos hd]

theorem runTask_tasks_other (s : MState) (tid i : ℕ) (hi : i ≠ tid) :
    (runTask s tid).tasks i = s.tasks i := by
  unfold runTask
  cases hT : s.tasks tid with
  | none => rfl
  | some T =>
    dsimp only
    by_cases hd : T.done = true
    · rw [if_pos hd]
    · rw [if_neg hd]
      by_cases hc : T.cancelRequested = true
      · rw [if_pos hc]
        cases T.pc with
        | created => rw [markDone_tasks, if_neg hi]
        | waitStart => rw [death_tasks, if_neg hi]
        | sleepDur => rw [death_tasks, if_neg hi]
      · rw [if_neg hc]
        cases T.pc with
        | created =>
          dsimp only
          cases T.startAt with
          | some sa =>
            dsimp only
            by_cases hw : 0 < ticks_diff sa s.now
            · rw [if_pos hw]
              simp [hi]
            · rw [if_neg hw, relayOnSegment_tasks, if_neg hi]
          | none => rw [relayOnSegment_tasks, if_neg hi]
        | waitStart => rw [relayOnSegment_tasks, if_neg hi]
        | sleepDur => rw [death_tasks, if_neg hi]

theorem runTask_active_other (s : MState) (tid : ℕ) (T : TaskRec)
    (hT : s.tasks tid = some T) (q : ℕ) (hq : q ≠ T.pin) :
    (runTask s tid).active_timers q = s.active_timers q := by
  unfold runTask
  rw [hT]
  dsimp only
  by_cases hd : T.done = true
  · rw [if_pos hd]
  · rw [if_neg hd]
    by_cases hc : T.cancelRequested = true
    · rw [if_pos hc]
      cases T.pc with
      | created => rw [markDone_active]
      | waitStart => rw [death_active, if_neg hq]
      | sleepDur => rw [death_active, if_neg hq]
    · rw [if_neg hc]
      cases T.pc with
      | created =>
        dsimp only
        cases T.startAt with
        | some sa =>
          dsimp only
          by_cases hw : 0 < ticks_diff sa s.now
          · rw [if_pos hw]
          · rw [if_neg hw, relayOnSegment_active, if_neg hq]
        | none => rw [relayOnSegment_active, if_neg hq]
      | waitStart => rw [relayOnSegment_active, if_neg hq]
      | sleepDur => rw [death_active, if_neg hq]

theorem runTask_tasks_self_pin (s : MState) (tid : ℕ) (T T2 : TaskRec)
    (hT : s.tasks tid = some T) (h2 : (runTask s tid).tasks tid = some T2) :
    T2.pin = T.pin := by
  unfold runTask at h2
  rw [hT] at h2
  dsimp only at h2
  by_cases hd : T.done = true
  · rw [if_pos hd, hT] at h2
    injection h2 with h2
    rw [h2]
  · rw [if_neg hd] at h2
    by_cases hc : T.cancelRequested = true
    · rw [if_pos hc] at h2
      revert h2
      cases T.pc with
      | created =>
        intro h2
        rw [markDone_tasks, if_pos rfl] at h2
        injection h2 with h2
        rw [← h2]
      | waitStart =>
        intro h2
        rw [death_tasks, if_pos rfl] at h2
        injection h2 with h2
        rw [← h2]
      | sleepDur =>
        intro h2
        rw [death_tasks, if_pos rfl] at h2
        injection h2 with h2
        rw [← h2]
    · rw [if_neg hc] at h2
      revert h2
      cases T.pc with
      | created =>
        dsimp only
        cases T.startAt with
        | some sa =>
          dsimp only
          intro h2
          by_cases hw : 0 < ticks_diff sa s.now
          · rw [if_pos hw] at h2
            simp only [if_pos rfl] at h2
            injection h2 with h2
            rw [← h2]
          · rw [if_neg hw, relayOnSegment_tasks, if_pos rfl] at h2
            injection h2 with h2
            rw [← h2]
        | none =>
          intro h2
          rw [relayOnSegment_tasks, if_pos rfl] at h2
          injection h2 with h2
          rw [← h2]
      | waitStart =>
        intro h2
        rw [relayOnSegment_tasks, if_pos rfl] at h2
        injection h2 with h2
        rw [← h2]
      | sleepDur =>
        intro h2
        rw [death_tasks, if_pos rfl] at h2
        injection h2 with h2
        rw [← h2]

theorem runTask_refs_char (s : MState) (tid p : ℕ) :
    (runTask s tid).task_refs p = s.task_refs p ∨
      (s.task_refs p = some tid ∧ (runTask s tid).task_refs p = none) := by
  unfold runTask
  cases hT : s.tasks tid with
  | none => left; rfl
  | some T =>
    dsimp only
    by_cases hd : T.done = true
    · rw [if_pos hd]; left; rfl
    · rw [if_neg hd]
      by_cases hc : T.cancelRequested = true
      · rw [if_pos hc]
        cases T.pc with
        | created => left; rw [markDone_refs]
        | waitStart =>
          rw [death_refs]
          split
          · rename_i h
            right
            exact ⟨by rw [h.2]; exact h.1, rfl⟩
          · left; rfl
        | sleepDur =>
          rw [death_refs]
          split
          · rename_i h
            right
            exact ⟨by rw [h.2]; exact h.1, rfl⟩
          · left; rfl
      · rw [if_neg hc]
        cases T.pc with
        | created =>
          dsimp only
          cases T.startAt with
          | some sa =>
            dsimp only
            by_cases hw : 0 < ticks_diff sa s.now
            · rw [if_pos hw]; left; rfl
            · rw [if_neg hw, relayOnSegment_refs]; left; rfl
          | none => rw [relayOnSegment_refs]; left; rfl
        | waitStart => rw [relayOnSegment_refs]; left; rfl
        | sleepDur =>
          rw [death_refs]
          split
          · rename_i h
            right
            exact ⟨by rw [h.2]; exact h.1, rfl⟩
          · left; rfl

theorem get_timer_status_none (s : MState) (p : ℕ) (h : s.active_timers p = none) :
    get_timer_status s p = none := by
  unfold get_timer_status
  rw [h]

theorem get_timer_status_pending (s : MState) (p tid : ℕ) (sa : Option ℕ) (dm : ℕ)
    (h : s.active_timers p = some (TimerInfo.pending tid sa dm)) :
    get_timer_status s p = some (TimerStatus.scheduledStatus p sa dm) := by
  unfold get_timer_status
  rw [h]

theorem get_timer_status_running (s : MState) (p st dm : ℕ)
    (h : s.active_timers p = some (TimerInfo.running st dm)) :
    get_timer_status s p =
      some (TimerStatus.runningStatus p (ticks_diff s.now st)
        (max 0 ((dm : ℤ) - ticks_diff s.now st)) dm) := by
  unfold get_timer_status
  rw [h]

/-! ## Tick arithmetic -/

theorem ticks_diff_eq (x y : ℕ)
    (h1 : -(TICKS_PERIOD / 2 : ℤ) ≤ (x : ℤ) - y)
    (h2 : (x : ℤ) - y < TICKS_PERIOD / 2) :
    ticks_diff (x % TICKS_PERIOD) (y % TICKS_PERIOD) = (x : ℤ) - y := by
  unfold ticks_diff TICKS_PERIOD at *
  have hx : ((x % 2 ^ 30 : ℕ) : ℤ) = (x : ℤ) % 2 ^ 30 := by push_cast; ring_nf
  have hy : ((y % 2 ^ 30 : ℕ) : ℤ) = (y : ℤ) % 2 ^ 30 := by push_cast; ring_nf
  omega

theorem scheduledOnReal_eq (r0 r : ℕ) (hle : r0 ≤ r) (hb : r - r0 < TICKS_PERIOD / 2) :
    scheduledOnReal r0 r = max (r0 + SYNC_DELAY_MS) r := by
  unfold scheduledOnReal
  dsimp only
  have hsa : ticks_add (r0 % TICKS_PERIOD) SYNC_DELAY_MS
      = (r0 + SYNC_DELAY_MS) % TICKS_PERIOD := by
    unfold ticks_add
    rw [Nat.mod_add_mod]
  rw [hsa]
  have hd := ticks_diff_eq (r0 + SYNC_DELAY_MS) r
    (by unfold TICKS_PERIOD at hb; unfold SYNC_DELAY_MS TICKS_PERIOD; push_cast; omega)
    (by unfold TICKS_PERIOD at hb; unfold SYNC_DELAY_MS TICKS_PERIOD; push_cast; omega)
  rw [hd]
  rw [Nat.max_def]
  unfold SYNC_DELAY_MS at *
  split_ifs <;> omega

/-! ## Status-window preservation -/

theorem window_step (p newTid : ℕ) (sa : Option ℕ) (d : ℕ) (s : MState) (e : Ev)
    (hI : Inv s)
    (h1 : s.active_timers p = some (TimerInfo.pending newTid sa d))
    (h2 : s.tasks newTid = some
      { pin := p, durationMs := d, startAt := sa, pc := TaskPC.created,
        cancelRequested := false, done := false })
    (h3 : ∀ tid T, s.tasks tid = some T → T.pin = p → tid ≠ newTid → T.done = true)
    (he : windowOK p newTid e = true) :
    (step s e).active_timers p = some (TimerInfo.pending newTid sa d) ∧
    (step s e).tasks newTid = some
      { pin := p, durationMs := d, startAt := sa, pc := TaskPC.created,
        cancelRequested := false, done := false } ∧
    (∀ tid T, (step s e).tasks tid = some T → T.pin = p → tid ≠ newTid →
      T.done = true) := by
  cases e with
  | start q d2 b2 =>
    simp only [windowOK] at he
    have hq : q ≠ p := by simpa using he
    have hnn : newTid ≠ s.nextId := by
      intro hh
      rw [hI.fresh newTid (le_of_eq hh.symm)] at h2
      cases h2
    refine ⟨?_, ?_, ?_⟩
    · show (start_timer s q d2 b2).1.active_timers p = _
      rw [start_timer_active, if_neg (fun hh => hq (hh.symm))]
      exact h1
    · show (start_timer s q d2 b2).1.tasks newTid = _
      rw [start_timer_tasks, if_neg hnn,
        stop_timer_tasks_pin_ne s hI q newTid _ h2 (by intro hh; exact hq hh.symm)]
      exact h2
    · intro tid T hT hpin hne
      rw [show (step s (Ev.start q d2 b2)) = (start_timer s q d2 b2).1 from rfl,
        start_timer_tasks] at hT
      by_cases hx : tid = s.nextId
      · rw [if_pos hx] at hT
        injection hT with hT
        rw [← hT] at hpin
        exact absurd hpin hq
      · rw [if_neg hx] at hT
        rcases stop_timer_tasks_shape s q tid with hsh | ⟨T0, hT0, hd0, hres⟩
        · rw [hsh] at hT
          exact h3 tid T hT hpin hne
        · rw [hres] at hT
          injection hT with hT
          rw [← hT] at hpin
          have hdone := h3 tid T0 hT0 hpin hne
          rw [hdone] at hd0
          cases hd0
  | stop q =>
    simp only [windowOK] at he
    have hq : q ≠ p := by simpa using he
    refine ⟨?_, ?_, ?_⟩
    · show (stop_timer s q).1.active_timers p = _
      rw [stop_timer_active, if_neg (fun hh => hq (hh.symm))]
      exact h1
    · show (stop_timer s q).1.tasks newTid = _
      rw [stop_timer_tasks_pin_ne s hI q newTid _ h2 (by intro hh; exact hq hh.symm)]
      exact h2
    · intro tid T hT hpin hne
      rw [show (step s (Ev.stop q)) = (stop_timer s q).1 from rfl] at hT
      rcases stop_timer_tasks_shape s q tid with hsh | ⟨T0, hT0, hd0, hres⟩
      · rw [hsh] at hT
        exact h3 tid T hT hpin hne
      · rw [hres] at hT
        injection hT with hT
        rw [← hT] at hpin
        have hdone := h3 tid T0 hT0 hpin hne
        rw [hdone] at hd0
        cases hd0
  | run tid =>
    simp only [windowOK] at he
    have htn : tid ≠ newTid := by simpa using he
    cases hx : s.tasks tid with
    | none =>
      rw [show (step s (Ev.run tid)) = runTask s tid from rfl, runTask_none s tid hx]
      exact ⟨h1, h2, h3⟩
    | some T =>
      by_cases hTpin : T.pin = p
      · have hdone := h3 tid T hx hTpin htn
        rw [show (step s (Ev.run tid)) = runTask s tid from rfl,
          runTask_done s tid T hx hdone]
        exact ⟨h1, h2, h3⟩
      · refine ⟨?_, ?_, ?_⟩
        · show (runTask s tid).active_timers p = _
          rw [runTask_active_other s tid T hx p (fun hh => hTpin hh.symm)]
          exact h1
        · show (runTask s tid).tasks newTid = _
          rw [runTask_tasks_other s tid newTid htn.symm]
          exact h2
        · intro tid2 T2 hT2 hpin2 hne2
          rw [show (step s (Ev.run tid)) = runTask s tid from rfl] at hT2
          by_cases hx2 : tid2 = tid
          · exfalso
            rw [hx2] at hT2
            have := runTask_tasks_self_pin s tid T T2 hx hT2
            rw [hpin2] at this
            exact hTpin this.symm
          · rw [runTask_tasks_other s tid tid2 hx2] at hT2
            exact h3 tid2 T2 hT2 hpin2 hne2
  | tick dt =>
    exact ⟨h1, h2, h3⟩

theorem window_steps (p newTid : ℕ) (sa : Option ℕ) (d : ℕ) (es : List Ev) :
    ∀ s : MState, Inv s →
    s.active_timers p = some (TimerInfo.pending newTid sa d) →
    s.tasks newTid = some
      { pin := p, durationMs := d, startAt := sa, pc := TaskPC.created,
        cancelRequested := false, done := false } →
    (∀ tid T, s.tasks tid = some T → T.pin = p → tid ≠ newTid → T.done = true) →
    (∀ e ∈ es, windowOK p newTid e = true) →
    (steps s es).active_timers p = some (TimerInfo.pending newTid sa d) ∧
    (steps s es).tasks newTid = some
      { pin := p, durationMs := d, startAt := sa, pc := TaskPC.created,
        cancelRequested := false, done := false } := by
  induction es with
  | nil =>
    intro s hI h1 h2 h3 hok
    exact ⟨h1, h2⟩
  | cons e es ih =>
    intro s hI h1 h2 h3 hok
    obtain ⟨h1n, h2n, h3n⟩ := window_step p newTid sa d s e hI h1 h2 h3
      (hok e (List.mem_cons_self e es))
    exact ih (step s e) (inv_step s e hI) h1n h2n h3n
      (fun e2 hmem => hok e2 (List.mem_cons_of_mem e hmem))

/-! ## Claim theorems -/

/-- C3: the claim states that `GPIOController.cleanup` commands every
configured pin OFF best-effort, a hardware write failure on one pin not
preventing the remaining pins from being commanded OFF.  The source wraps
the whole `for` loop in a single `try` (gpio_control.py lines 127-140), so
the first raising write aborts the iteration.  Evidence at the failing
input: all four relays commanded ON and the pin-14 hardware write raising —
`cleanup` returns `False`, and pins 15, 16 and 17 (and 14 itself, whose
state-cache update is skipped) all remain commanded ON, contradicting the
claim. -/
theorem C3_cleanup_aborts_on_failure :
    (cleanup (fun q => q == 14) (fun _ => true)).2 = false ∧
    (cleanup (fun q => q == 14) (fun _ => true)).1 14 = true ∧
    (cleanup (fun q => q == 14) (fun _ => true)).1 15 = true ∧
    (cleanup (fun q => q == 14) (fun _ => true)).1 16 = true ∧
    (cleanup (fun q => q == 14) (fun _ => true)).1 17 = true := by
  decide

/-- C5: the claim states that after `set_heating_enabled(false)` the relay
is commanded OFF synchronously, the cache is cleared, and the loop performs
no further sensor reads or relay writes until re-enabled — including when a
read is in flight at the moment of disabling.  The synchronous part holds
(`heatDisabledMidRead` shows relay OFF and cache `None` right after the
call), but the loop does not re-check `heating_enabled` after the
conversion `await` (timer_manager.py lines 286-306): the in-flight read
completes, repopulates `last_temperature`, and applies hysteresis — here
commanding the heating relay ON (10 °C < 20 °C − 0.5 °C with the relay
OFF) while the controller is disabled. -/
theorem C5_disable_midread_commands_relay_on :
    heatDisabledMidRead.enabled = false ∧
    heatDisabledMidRead.relayOn = false ∧
    heatDisabledMidRead.lastTemperature = none ∧
    heatDisabledMidRead.pc = HeatPC.reading ∧
    (heatReadComplete heatDisabledMidRead (some 10)).1.enabled = false ∧
    (heatReadComplete heatDisabledMidRead (some 10)).1.relayOn = true ∧
    (heatReadComplete heatDisabledMidRead (some 10)).2 = [(heating_pin, true)] ∧
    (heatReadComplete heatDisabledMidRead (some 10)).1.lastTemperature = some 10 := by
  have hstate : heatDisabledMidRead =
      { relayOn := false, enabled := false, target := 20,
        lastTemperature := none, pc := HeatPC.reading } := rfl
  refine ⟨rfl, rfl, rfl, rfl, ?_, ?_, ?_, ?_⟩ <;>
    · rw [hstate]
      unfold heatReadComplete
      dsimp only
      rw [if_pos (show (10 : ℚ) < 20 - heating_hysteresis by
            norm_num [heating_hysteresis]),
        if_pos rfl]

/-- C6: `start_timer(pin, duration, scheduled := true)` returns
`start_at = now() + SYNC_DELAY_MS` in modular tick arithmetic and
`sync_delay_ms = 150`; with `scheduled := false` it returns
`start_at = None`.  The task body computes its wait with the signed modular
`ticks_diff`, so in unwrapped real time the relay-ON moment is
`max (r0 + 150) r` — never earlier than the scheduled start — for any
schedule time `r0` and wake time `r` within half a tick period, including
across the 2^30 ms wraparound of the monotonic clock. -/
theorem C6_scheduled_start_and_wraparound :
    (∀ (s : MState) (p d : ℕ), ((start_timer s p d true).2).start_at
        = some ((s.now + SYNC_DELAY_MS) % TICKS_PERIOD) ∧
      ((start_timer s p d true).2).sync_delay_ms = 150) ∧
    (∀ (s : MState) (p d : ℕ), ((start_timer s p d false).2).start_at = none ∧
      ((start_timer s p d false).2).sync_delay_ms = 150) ∧
    (∀ r0 r : ℕ, r0 ≤ r → r - r0 < TICKS_PERIOD / 2 →
      scheduledOnReal r0 r = max (r0 + SYNC_DELAY_MS) r ∧
      r0 + SYNC_DELAY_MS ≤ scheduledOnReal r0 r) := by
  refine ⟨?_, ?_, ?_⟩
  · intro s p d
    rw [start_timer_ret]
    exact ⟨rfl, rfl⟩
  · intro s p d
    rw [start_timer_ret]
    exact ⟨rfl, rfl⟩
  · intro r0 r hle hb
    have he := scheduledOnReal_eq r0 r hle hb
    exact ⟨he, by rw [he]; exact le_max_left _ _⟩

/-- C6 witness: concrete instantiation across the clock wraparound:
scheduling at real time 2^30 − 100 (ticks about to wrap) and waking at
2^30 − 60 still lands the relay-ON moment exactly at 2^30 + 50 =
schedule + 150 ms. -/
theorem C6_scheduled_start_witness :
    ((start_timer initState 14 5000 true).2).start_at
        = some ((initState.now + SYNC_DELAY_MS) % TICKS_PERIOD) ∧
    ((start_timer initState 14 5000 true).2).sync_delay_ms = 150 ∧
    ((start_timer initState 14 5000 false).2).start_at = none ∧
    2 ^ 30 - 100 ≤ 2 ^ 30 - 60 ∧
    2 ^ 30 - 60 - (2 ^ 30 - 100) < TICKS_PERIOD / 2 ∧
    scheduledOnReal (2 ^ 30 - 100) (2 ^ 30 - 60)
        = max (2 ^ 30 - 100 + SYNC_DELAY_MS) (2 ^ 30 - 60) ∧
    2 ^ 30 - 100 + SYNC_DELAY_MS ≤ scheduledOnReal (2 ^ 30 - 100) (2 ^ 30 - 60) :=
  ⟨(C6_scheduled_start_and_wraparound.1 initState 14 5000).1,
   (C6_scheduled_start_and_wraparound.1 initState 14 5000).2,
   (C6_scheduled_start_and_wraparound.2.1 initState 14 5000).1,
   by decide, by decide,
   (C6_scheduled_start_and_wraparound.2.2 (2 ^ 30 - 100) (2 ^ 30 - 60)
     (by decide) (by decide)).1,
   (C6_scheduled_start_and_wraparound.2.2 (2 ^ 30 - 100) (2 ^ 30 - 60)
     (by decide) (by decide)).2⟩

/-- C7: one enabled heating iteration with a successful reading `t`
commands the relay ON exactly when `t < target − 0.5` with the relay
currently OFF, commands it OFF exactly when `t ≥ target` with the relay
currently ON, and inside the dead band `target − 0.5 ≤ t < target` issues
no relay command and leaves the commanded state unchanged
(timer_manager.py lines 293-306, hysteresis 0.5 °C). -/
theorem C7_hysteresis_dead_band (h : HeatState) (t : ℚ) :
    ((heatReadComplete h (some t)).2 = [(heating_pin, true)] ↔
      t < h.target - heating_hysteresis ∧ h.relayOn = false) ∧
    ((heatReadComplete h (some t)).2 = [(heating_pin, false)] ↔
      h.target ≤ t ∧ h.relayOn = true) ∧
    (h.target - heating_hysteresis ≤ t → t < h.target →
      (heatReadComplete h (some t)).2 = [] ∧
      (heatReadComplete h (some t)).1.relayOn = h.relayOn) := by
  have hhyst : heating_hysteresis = 1 / 2 := rfl
  unfold heatReadComplete
  dsimp only
  by_cases h1 : t < h.target - heating_hysteresis
  · rw [if_pos h1]
    by_cases h2 : h.relayOn = false
    · rw [if_pos h2]
      refine ⟨iff_of_true rfl ⟨h1, h2⟩, iff_of_false (by simp) ?_, ?_⟩
      · rintro ⟨_, hcon⟩
        rw [h2] at hcon
        cases hcon
      · intro hb1 _
        exact absurd h1 (not_lt.mpr hb1)
    · rw [if_neg h2]
      refine ⟨iff_of_false (by simp) ?_, iff_of_false (by simp) ?_, ?_⟩
      · rintro ⟨_, hcon⟩
        exact h2 hcon
      · rintro ⟨hcon, _⟩
        rw [hhyst] at h1
        linarith
      · intro hb1 _
        exact absurd h1 (not_lt.mpr hb1)
  · rw [if_neg h1]
    by_cases h3 : h.target ≤ t
    · rw [if_pos h3]
      by_cases h4 : h.relayOn = true
      · rw [if_pos h4]
        refine ⟨iff_of_false (by simp) ?_, iff_of_true rfl ⟨h3, h4⟩, ?_⟩
        · rintro ⟨hcon, _⟩
          exact h1 hcon
        · intro _ hb2
          exact absurd h3 (not_le.mpr hb2)
      · rw [if_neg h4]
        refine ⟨iff_of_false (by simp) ?_, iff_of_false (by simp) ?_, ?_⟩
        · rintro ⟨hcon, _⟩
          exact h1 hcon
        · rintro ⟨_, hcon⟩
          exact h4 hcon
        · intro _ hb2
          exact absurd h3 (not_le.mpr hb2)
    · rw [if_neg h3]
      refine ⟨iff_of_false (by simp) ?_, iff_of_false (by simp) ?_, ?_⟩
      · rintro ⟨hcon, _⟩
        exact h1 hcon
      · rintro ⟨hcon, _⟩
        exact h3 hcon
      · intro _ _
        exact ⟨rfl, rfl⟩

/-- C7 witness: concrete dead-band instance — reading 19.75 °C against
target 20 °C with the relay OFF issues no command and leaves it OFF. -/
theorem C7_hysteresis_dead_band_witness :
    ((heatReadComplete
        { relayOn := false, enabled := true, target := 20,
          lastTemperature := none, pc := HeatPC.reading } (some (79 / 4))).2
        = [(heating_pin, true)] ↔
      (79 / 4 : ℚ) < 20 - heating_hysteresis ∧ false = false) ∧
    ((heatReadComplete
        { relayOn := false, enabled := true, target := 20,
          lastTemperature := none, pc := HeatPC.reading } (some (79 / 4))).2
        = [(heating_pin, false)] ↔
      (20 : ℚ) ≤ 79 / 4 ∧ false = true) ∧
    ((20 : ℚ) - heating_hysteresis ≤ 79 / 4 → (79 / 4 : ℚ) < 20 →
      (heatReadComplete
        { relayOn := false, enabled := true, target := 20,
          lastTemperature := none, pc := HeatPC.reading } (some (79 / 4))).2 = [] ∧
      (heatReadComplete
        { relayOn := false, enabled := true, target := 20,
          lastTemperature := none, pc := HeatPC.reading } (some (79 / 4))).1.relayOn
        = false) :=
  C7_hysteresis_dead_band
    { relayOn := false, enabled := true, target := 20,
      lastTemperature := none, pc := HeatPC.reading } (79 / 4)

/-- C8: an enabled heating iteration whose sensor read fails (the sensor
driver catches every exception and returns `None`, temperature_sensor.py
lines 89-92) commands the heating relay OFF in that same iteration
(timer_manager.py lines 289-292), records no temperature, and returns to
the loop top — the failure never propagates (the whole iteration is a
total function in the model because the source catches internally). -/
theorem C8_sensor_failure_fails_safe (h : HeatState) :
    (heatReadComplete h (read_temperature_async SensorOutcome.failure)).2
        = [(heating_pin, false)] ∧
    (heatReadComplete h (read_temperature_async SensorOutcome.failure)).1.relayOn
        = false ∧
    (heatReadComplete h (read_temperature_async SensorOutcome.failure)).1.pc
        = HeatPC.checkEnabled ∧
    (heatReadComplete h (read_temperature_async SensorOutcome.failure)).1.lastTemperature
        = none :=
  ⟨rfl, rfl, rfl, rfl⟩

/-- C8 witness: the fail-safe OFF at a concrete state — heating enabled,
relay currently ON, read fails, relay commanded OFF and loop continues. -/
theorem C8_sensor_failure_fails_safe_witness :
    (heatReadComplete
        { relayOn := true, enabled := true, target := 20,
          lastTemperature := some 18, pc := HeatPC.reading }
        (read_temperature_async SensorOutcome.failure)).2
        = [(heating_pin, false)] ∧
    (heatReadComplete
        { relayOn := true, enabled := true, target := 20,
          lastTemperature := some 18, pc := HeatPC.reading }
        (read_temperature_async SensorOutcome.failure)).1.relayOn = false ∧
    (heatReadComplete
        { relayOn := true, enabled := true, target := 20,
          lastTemperature := some 18, pc := HeatPC.reading }
        (read_temperature_async SensorOutcome.failure)).1.pc = HeatPC.checkEnabled ∧
    (heatReadComplete
        { relayOn := true, enabled := true, target := 20,
          lastTemperature := some 18, pc := HeatPC.reading }
        (read_temperature_async SensorOutcome.failure)).1.lastTemperature = none :=
  C8_sensor_failure_fails_safe
    { relayOn := true, enabled := true, target := 20,
      lastTemperature := some 18, pc := HeatPC.reading }

theorem reach_exposureOnState : Reach exposureOnState := by
  show Reach (step (step initState (Ev.start 14 5000 false)) (Ev.run 0))
  exact Reach.next _ _ (Reach.next _ _ Reach.init)

theorem reach_stoppedState : Reach stoppedState := by
  show Reach (step exposureOnState (Ev.stop 14))
  exact Reach.next _ _ reach_exposureOnState

/-- C1: on every exit path of `_timer_task` — normal completion after the
exposure sleep, cancellation delivered at either `await`, or cancellation
of a never-started task — the relay's commanded state at the moment the
task becomes terminal is OFF, unless a newer task on the same pin has
already issued its own relay-ON write (it is then parked in its exposure
sleep).  The only exceptional exit of the body is `CancelledError`:
`set_relay_state` catches hardware errors internally and returns a bool
the body ignores, so no other exception can escape after the relay-ON
write.  Stated over the operational model: whenever a scheduler step takes
task `tid` from non-terminal to terminal, the pin's commanded state in the
resulting state is OFF, or a strictly newer live task on the same pin has
commanded it ON. -/
theorem C1_failsafe_exit (s : MState) (hs : Reach s) (tid : ℕ) (T T2 : TaskRec)
    (hT : s.tasks tid = some T) (hnd : T.done = false)
    (h2 : (runTask s tid).tasks tid = some T2) (hd2 : T2.done = true) :
    (runTask s tid).relay T.pin = false ∨
    ∃ tid2 T3, (runTask s tid).tasks tid2 = some T3 ∧ T3.pin = T.pin ∧
      tid < tid2 ∧ T3.pc = TaskPC.sleepDur ∧ live T3 := by
  have hI := inv_reach s hs
  unfold runTask at h2 ⊢
  rw [hT] at h2 ⊢
  dsimp only at h2 ⊢
  rw [if_neg (by simp [hnd])] at h2 ⊢
  by_cases hc : T.cancelRequested = true
  · rw [if_pos hc] at h2 ⊢
    revert h2
    cases hpc : T.pc with
    | created =>
      intro h2
      rw [markDone_relay]
      by_cases hrel : s.relay T.pin = true
      · right
        obtain ⟨hv, tid2, T3, hT3, hpin3, hpc3, hl3⟩ := hI.relayLive T.pin hrel
        have hne : tid2 ≠ tid := by
          intro hh
          rw [hh, hT] at hT3
          injection hT3 with hT3
          have hx : T3.cancelRequested = false := hl3.1
          rw [← hT3, hc] at hx
          cases hx
        refine ⟨tid2, T3, ?_, hpin3, ?_, hpc3, hl3⟩
        · rw [markDone_tasks, if_neg hne]
          exact hT3
        · rcases Nat.lt_trichotomy tid tid2 with hlt | heq | hgt
          · exact hlt
          · exact absurd heq.symm hne
          · exact absurd hpin3.symm
              (hI.liveNewest tid2 T3 hT3 hl3 tid T hT hgt)
      · left
        simpa using hrel
    | waitStart =>
      intro h2
      left
      rw [death_relay]
      by_cases hv : validPin T.pin = true
      · rw [if_pos ⟨hv, rfl⟩]
      · rw [if_neg (fun hh => hv hh.1)]
        by_cases hrel : s.relay T.pin = true
        · exact absurd (hI.relayLive T.pin hrel).1 hv
        · simpa using hrel
    | sleepDur =>
      intro h2
      left
      rw [death_relay]
      by_cases hv : validPin T.pin = true
      · rw [if_pos ⟨hv, rfl⟩]
      · rw [if_neg (fun hh => hv hh.1)]
        by_cases hrel : s.relay T.pin = true
        · exact absurd (hI.relayLive T.pin hrel).1 hv
        · simpa using hrel
  · rw [if_neg hc] at h2 ⊢
    revert h2
    cases hpc : T.pc with
    | created =>
      dsimp only
      cases hsa : T.startAt with
      | some sa =>
        dsimp only
        intro h2
        by_cases hw : 0 < ticks_diff sa s.now
        · rw [if_pos hw] at h2
          exfalso
          simp only [if_pos rfl] at h2
          injection h2 with h2
          have hdt : T.done = true := by rw [← h2] at hd2; exact hd2
          rw [hnd] at hdt
          cases hdt
        · rw [if_neg hw] at h2
          exfalso
          rw [relayOnSegment_tasks, if_pos rfl] at h2
          injection h2 with h2
          have hdt : T.done = true := by rw [← h2] at hd2; exact hd2
          rw [hnd] at hdt
          cases hdt
      | none =>
        intro h2
        exfalso
        rw [relayOnSegment_tasks, if_pos rfl] at h2
        injection h2 with h2
        have hdt : T.done = true := by rw [← h2] at hd2; exact hd2
        rw [hnd] at hdt
        cases hdt
    | waitStart =>
      intro h2
      exfalso
      rw [relayOnSegment_tasks, if_pos rfl] at h2
      injection h2 with h2
      have hdt : T.done = true := by rw [← h2] at hd2; exact hd2
      rw [hnd] at hdt
      cases hdt
    | sleepDur =>
      intro h2
      left
      rw [death_relay]
      by_cases hv : validPin T.pin = true
      · rw [if_pos ⟨hv, rfl⟩]
      · rw [if_neg (fun hh => hv hh.1)]
        by_cases hrel : s.relay T.pin = true
        · exact absurd (hI.relayLive T.pin hrel).1 hv
        · simpa using hrel

/-- C1 witness: a running exposure on pin 14 is stopped; delivering the
cancellation to the task (its terminal transition) leaves relay 14
commanded OFF. -/
theorem C1_failsafe_exit_witness :
    (runTask stoppedState 0).relay
        ({ pin := 14, durationMs := 5000, startAt := none, pc := TaskPC.sleepDur,
           cancelRequested := true, done := false } : TaskRec).pin = false ∨
    ∃ tid2 T3, (runTask stoppedState 0).tasks tid2 = some T3 ∧
      T3.pin = ({ pin := 14, durationMs := 5000, startAt := none,
                  pc := TaskPC.sleepDur, cancelRequested := true,
                  done := false } : TaskRec).pin ∧
      0 < tid2 ∧ T3.pc = TaskPC.sleepDur ∧ live T3 :=
  C1_failsafe_exit stoppedState reach_stoppedState 0
    { pin := 14, durationMs := 5000, startAt := none, pc := TaskPC.sleepDur,
      cancelRequested := true, done := false }
    { pin := 14, durationMs := 5000, startAt := none, pc := TaskPC.sleepDur,
      cancelRequested := true, done := true }
    (by decide) rfl (by decide) rfl

/-- C2: at most one live exposure task exists per pin at any reachable
state (a task whose `Task.cancel()` has been requested counts as already
`Cancelled` in the spec's task-state model; it can never command its relay
ON again).  Moreover `start_timer` on a pin whose registry holds a task
performs, within its own synchronous (non-awaiting, hence atomic) call:
cancellation of that old task, the relay-OFF command, creation of the new
task (not yet run), and the registry hand-over to the new task's index. -/
theorem C2_single_owner (s : MState) (hs : Reach s) :
    (∀ p tid1 T1 tid2 T2, s.tasks tid1 = some T1 → T1.pin = p → live T1 →
      s.tasks tid2 = some T2 → T2.pin = p → live T2 → tid1 = tid2) ∧
    (∀ p d sch oldTid, s.task_refs p = some oldTid →
      ∃ oldT, s.tasks oldTid = some oldT ∧ live oldT ∧
        (start_timer s p d sch).1.tasks oldTid
          = some { oldT with cancelRequested := true } ∧
        (start_timer s p d sch).1.relay p = false ∧
        (start_timer s p d sch).1.tasks s.nextId = some
          { pin := p, durationMs := d,
            startAt := if sch then some (ticks_add s.now SYNC_DELAY_MS) else none,
            pc := TaskPC.created, cancelRequested := false, done := false } ∧
        (start_timer s p d sch).1.task_refs p = some s.nextId) := by
  have hI := inv_reach s hs
  constructor
  · intro p tid1 T1 tid2 T2 h1 hp1 hl1 h2 hp2 hl2
    have r1 := hI.liveRefs tid1 T1 h1 hl1
    have r2 := hI.liveRefs tid2 T2 h2 hl2
    rw [hp1] at r1
    rw [hp2] at r2
    rw [r1] at r2
    exact Option.some.inj r2
  · intro p d sch oldTid href
    obtain ⟨oldT, hT, hpin, hl⟩ := hI.refsLive p oldTid href
    have hne : oldTid ≠ s.nextId := by
      intro hh
      rw [hI.fresh oldTid (le_of_eq hh.symm)] at hT
      cases hT
    have hnotearly : ¬(s.active_timers p = none ∧ s.task_refs p = none) := by
      rintro ⟨_, hcon⟩
      rw [hcon] at href
      cases href
    refine ⟨oldT, hT, hl, ?_, ?_, ?_, ?_⟩
    · rw [start_timer_tasks, if_neg hne]
      exact stop_cancels_refs s p oldTid oldT href hT hl.2
    · rw [congrFun (start_timer_relay s p d sch) p, stop_timer_relay]
      by_cases hv : validPin p = true
      · rw [if_pos ⟨hnotearly, hv, rfl⟩]
      · rw [if_neg (fun hh => hv hh.2.1)]
        by_cases hrel : s.relay p = true
        · exact absurd (hI.relayLive p hrel).1 hv
        · simpa using hrel
    · rw [start_timer_tasks, if_pos rfl]
    · rw [start_timer_refs, if_pos rfl]

/-- C2 witness: at the concrete reachable state with one running task on
pin 14, both conjuncts instantiated. -/
theorem C2_single_owner_witness :
    (∀ p tid1 T1 tid2 T2, exposureOnState.tasks tid1 = some T1 → T1.pin = p →
      live T1 → exposureOnState.tasks tid2 = some T2 → T2.pin = p → live T2 →
      tid1 = tid2) ∧
    (∀ p d sch oldTid, exposureOnState.task_refs p = some oldTid →
      ∃ oldT, exposureOnState.tasks oldTid = some oldT ∧ live oldT ∧
        (start_timer exposureOnState p d sch).1.tasks oldTid
          = some { oldT with cancelRequested := true } ∧
        (start_timer exposureOnState p d sch).1.relay p = false ∧
        (start_timer exposureOnState p d sch).1.tasks exposureOnState.nextId = some
          { pin := p, durationMs := d,
            startAt := if sch then
              some (ticks_add exposureOnState.now SYNC_DELAY_MS) else none,
            pc := TaskPC.created, cancelRequested := false, done := false } ∧
        (start_timer exposureOnState p d sch).1.task_refs p
          = some exposureOnState.nextId) :=
  C2_single_owner exposureOnState reach_exposureOnState

/-- C9: `stop_timer(pin)` returns `True` exactly when a live task existed
for the pin at the call (a task whose cancellation was already requested by
an earlier `stop_timer`/`start_timer` counts as terminal, which is what
makes the claim's own "second call returns false" clause consistent);
whenever it returns `True` the relay is commanded OFF before returning; and
an immediately repeated call on the same pin returns `False` without error
(the model's `stop_timer` is a total function). -/
theorem C9_stop_timer_contract (s : MState) (hs : Reach s) (p : ℕ) :
    ((stop_timer s p).2 = true ↔
      ∃ tid T, s.tasks tid = some T ∧ T.pin = p ∧ live T) ∧
    ((stop_timer s p).2 = true → (stop_timer s p).1.relay p = false) ∧
    (stop_timer (stop_timer s p).1 p).2 = false := by
  have hI := inv_reach s hs
  refine ⟨⟨?_, ?_⟩, ?_, ?_⟩
  · intro hret
    rw [stop_timer_ret] at hret
    cases hx : s.active_timers p with
    | none =>
      cases hr : s.task_refs p with
      | none => exact absurd ⟨hx, hr⟩ hret
      | some tid =>
        obtain ⟨T, hT, hpin, hl⟩ := hI.refsLive p tid hr
        exact ⟨tid, T, hT, hpin, hl⟩
    | some info =>
      cases info with
      | pending tid sa dm =>
        obtain ⟨T, hT, hpin, hl⟩ := hI.pendingLive p tid sa dm hx
        exact ⟨tid, T, hT, hpin, hl⟩
      | running st dm =>
        obtain ⟨tid, T, hT, hpin, hl⟩ := hI.runningLive p st dm hx
        exact ⟨tid, T, hT, hpin, hl⟩
  · rintro ⟨tid, T, hT, hpin, hl⟩
    rw [stop_timer_ret]
    rintro ⟨hact, hrefs⟩
    have hr := hI.liveRefs tid T hT hl
    rw [hpin, hrefs] at hr
    cases hr
  · intro hret
    rw [stop_timer_ret] at hret
    rw [stop_timer_relay]
    by_cases hv : validPin p = true
    · rw [if_pos ⟨hret, hv, rfl⟩]
    · rw [if_neg (fun hh => hv hh.2.1)]
      by_cases hrel : s.relay p = true
      · exact absurd (hI.relayLive p hrel).1 hv
      · simpa using hrel
  · have h1 : (stop_timer s p).1.active_timers p = none := by
      rw [stop_timer_active]
      simp
    have h2 : (stop_timer s p).1.task_refs p = none := by
      rw [stop_timer_refs]
      simp
    rcases Bool.eq_false_or_eq_true (stop_timer (stop_timer s p).1 p).2 with ht | hf
    · exact absurd ⟨h1, h2⟩ ((stop_timer_ret (stop_timer s p).1 p).mp ht)
    · exact hf

/-- C9 witness: at the concrete reachable state with one running task on
pin 14, the full contract instantiated. -/
theorem C9_stop_timer_contract_witness :
    ((stop_timer exposureOnState 14).2 = true ↔
      ∃ tid T, exposureOnState.tasks tid = some T ∧ T.pin = 14 ∧ live T) ∧
    ((stop_timer exposureOnState 14).2 = true →
      (stop_timer exposureOnState 14).1.relay 14 = false) ∧
    (stop_timer (stop_timer exposureOnState 14).1 14).2 = false :=
  C9_stop_timer_contract exposureOnState reach_exposureOnState 14

theorem runTask_running_entry (s2 : MState) (tid p2 st dm : ℕ)
    (h : (runTask s2 tid).active_timers p2 = some (TimerInfo.running st dm)) :
    s2.active_timers p2 = some (TimerInfo.running st dm) ∨
      (runTask s2 tid).relay p2 = true ∨ validPin p2 = false := by
  unfold runTask at h ⊢
  cases hT : s2.tasks tid with
  | none =>
    rw [hT] at h
    exact Or.inl h
  | some T =>
    rw [hT] at h
    dsimp only at h ⊢
    by_cases hd : T.done = true
    · rw [if_pos hd] at h
      exact Or.inl h
    · rw [if_neg hd] at h ⊢
      by_cases hc : T.cancelRequested = true
      · rw [if_pos hc] at h ⊢
        revert h
        cases T.pc with
        | created =>
          intro h
          rw [markDone_active] at h
          exact Or.inl h
        | waitStart =>
          intro h
          rw [death_active] at h
          split at h
          · cases h
          · exact Or.inl h
        | sleepDur =>
          intro h
          rw [death_active] at h
          split at h
          · cases h
          · exact Or.inl h
      · rw [if_neg hc] at h ⊢
        revert h
        cases T.pc with
        | created =>
          dsimp only
          cases T.startAt with
          | some sa =>
            dsimp only
            intro h
            by_cases hw : 0 < ticks_diff sa s2.now
            · rw [if_pos hw] at h
              exact Or.inl h
            · rw [if_neg hw]
              rw [if_neg hw, relayOnSegment_active] at h
              split at h
              · rename_i hp2
                right
                rw [relayOnSegment_relay]
                by_cases hv : validPin T.pin = true
                · left
                  rw [if_pos ⟨hv, hp2⟩]
                · right
                  rw [hp2]
                  simpa using hv
              · exact Or.inl h
          | none =>
            intro h
            rw [relayOnSegment_active] at h
            split at h
            · rename_i hp2
              right
              rw [relayOnSegment_relay]
              by_cases hv : validPin T.pin = true
              · left
                rw [if_pos ⟨hv, hp2⟩]
              · right
                rw [hp2]
                simpa using hv
            · exact Or.inl h
        | waitStart =>
          intro h
          rw [relayOnSegment_active] at h
          split at h
          · rename_i hp2
            right
            rw [relayOnSegment_relay]
            by_cases hv : validPin T.pin = true
            · left
              rw [if_pos ⟨hv, hp2⟩]
            · right
              rw [hp2]
              simpa using hv
          · exact Or.inl h
        | sleepDur =>
          intro h
          rw [death_active] at h
          split at h
          · cases h
          · exact Or.inl h

/-- C4 counterexample: the claim says `_task_refs` is written only by
`start_timer` and `stop_timer` and is never overwritten or cleared by a
task body's own bookkeeping.  In the code the task body's `finally` clause
(timer_manager.py lines 107-114) deletes `_task_refs[pin]` itself when the
entry still refers to the finishing task.  Concretely: after a timer on
pin 14 runs to completion, the scheduler step that executes the task body
(not `start_timer` or `stop_timer`) changes `_task_refs[14]` from the
task's handle to absent. -/
theorem C4_counterexample_body_clears_registry :
    exposureOnState.task_refs 14 = some 0 ∧
    (runTask exposureOnState 0).task_refs 14 = none ∧
    (runTask exposureOnState 0).tasks 0 = some
      { pin := 14, durationMs := 5000, startAt := none, pc := TaskPC.sleepDur,
        cancelRequested := false, done := true } := by
  decide

/-- C4 amended: the task body never installs or replaces a `_task_refs`
entry — a scheduler step either leaves `_task_refs[p]` unchanged or
removes the entry, and removes it only when it still referred to the very
task being run (the identity-guarded `finally` deletion at terminal
state); consequently every live task's registry entry refers to that task
(under its pin), so `stop_timer` can always reach and cancel it. -/
theorem C4_registry_amended (s : MState) (hs : Reach s) :
    (∀ tid p, (runTask s tid).task_refs p = s.task_refs p ∨
      (s.task_refs p = some tid ∧ (runTask s tid).task_refs p = none)) ∧
    (∀ tid T, s.tasks tid = some T → live T → s.task_refs T.pin = some tid) :=
  ⟨fun tid p => runTask_refs_char s tid p, (inv_reach s hs).liveRefs⟩

/-- C4 amended witness: the live running task on pin 14 is reachable
through its registry entry, and a step of another task index leaves the
entry alone. -/
theorem C4_registry_amended_witness :
    (∀ tid p, (runTask exposureOnState tid).task_refs p
        = exposureOnState.task_refs p ∨
      (exposureOnState.task_refs p = some tid ∧
        (runTask exposureOnState tid).task_refs p = none)) ∧
    (∀ tid T, exposureOnState.tasks tid = some T → live T →
      exposureOnState.task_refs T.pin = some tid) :=
  C4_registry_amended exposureOnState reach_exposureOnState

/-- C10 counterexample: the claim says that for every `start_timer` call,
`get_timer_status(pin)` reports `{running: false, scheduled: true}`
throughout the window between the call returning and the first execution
of the spawned task body.  When the call had to cancel a prior task, the
cancelled task's `finally` clause deletes `active_timers[pin]` — the entry
the new call just installed — so the status becomes `None` while the new
task has still never run: in `statusGapState` the second timer's task
(index 1) is still at its creation point, yet the status for pin 14 is
`None` rather than the scheduled shape. -/
theorem C10_counterexample_status_gap :
    get_timer_status statusGapState 14 = none ∧
    statusGapState.tasks 1 = some
      { pin := 14, durationMs := 3000, startAt := none, pc := TaskPC.created,
        cancelRequested := false, done := false } := by
  decide

/-- C10 amended: provided no non-terminal task existed on the pin at the
call (otherwise the old task's cleanup can delete the new status entry,
making the status `None` until the new body first runs), every state in
the window between `start_timer` returning and the first execution of the
spawned task body — under any events that are not calls on the same pin
and not runs of the new task — reports the scheduled shape
`{running: false, scheduled: true, start_at, duration_ms}` with
`start_at = None` in the immediate case, and the new task is still
unstarted; moreover a running-shaped status entry is only ever produced by
the scheduler step that also commands the relay ON (the task body records
its start time and issues the ON write in one atomic segment). -/
theorem C10_status_window_amended (s : MState) (hs : Reach s) (p d : ℕ) (sch : Bool)
    (hprior : ∀ tid T, s.tasks tid = some T → T.pin = p → T.done = true)
    (es : List Ev) (hes : ∀ e ∈ es, windowOK p s.nextId e = true) :
    (get_timer_status (steps (step s (Ev.start p d sch)) es) p =
      some (TimerStatus.scheduledStatus p
        (if sch then some (ticks_add s.now SYNC_DELAY_MS) else none) d) ∧
    (steps (step s (Ev.start p d sch)) es).tasks s.nextId = some
      { pin := p, durationMs := d,
        startAt := if sch then some (ticks_add s.now SYNC_DELAY_MS) else none,
        pc := TaskPC.created, cancelRequested := false, done := false }) ∧
    (∀ (s2 : MState) (tid p2 st dm : ℕ),
      (runTask s2 tid).active_timers p2 = some (TimerInfo.running st dm) →
      s2.active_timers p2 = some (TimerInfo.running st dm) ∨
        (runTask s2 tid).relay p2 = true ∨ validPin p2 = false) := by
  have hI := inv_reach s hs
  have hI0 : Inv (step s (Ev.start p d sch)) := inv_step s (Ev.start p d sch) hI
  have h1 : (step s (Ev.start p d sch)).active_timers p
      = some (TimerInfo.pending s.nextId
          (if sch then some (ticks_add s.now SYNC_DELAY_MS) else none) d) := by
    show (start_timer s p d sch).1.active_timers p = _
    rw [start_timer_active, if_pos rfl]
  have h2 : (step s (Ev.start p d sch)).tasks s.nextId = some
      { pin := p, durationMs := d,
        startAt := if sch then some (ticks_add s.now SYNC_DELAY_MS) else none,
        pc := TaskPC.created, cancelRequested := false, done := false } := by
    show (start_timer s p d sch).1.tasks s.nextId = _
    rw [start_timer_tasks, if_pos rfl]
  have h3 : ∀ tid T, (step s (Ev.start p d sch)).tasks tid = some T →
      T.pin = p → tid ≠ s.nextId → T.done = true := by
    intro tid T hT hpin hne
    rw [show step s (Ev.start p d sch) = (start_timer s p d sch).1 from rfl,
      start_timer_tasks, if_neg hne] at hT
    rcases stop_timer_tasks_shape s p tid with hsh | ⟨T0, hT0, hd0, hres⟩
    · rw [hsh] at hT
      exact hprior tid T hT hpin
    · rw [hres] at hT
      injection hT with hT
      rw [← hT] at hpin
      have hdone := hprior tid T0 hT0 hpin
      rw [hdone] at hd0
      cases hd0
  obtain ⟨hw1, hw2⟩ := window_steps p s.nextId
    (if sch then some (ticks_add s.now SYNC_DELAY_MS) else none) d es
    (step s (Ev.start p d sch)) hI0 h1 h2 h3 hes
  exact ⟨⟨get_timer_status_pending _ p s.nextId _ d hw1, hw2⟩,
    fun s2 tid p2 st dm h => runTask_running_entry s2 tid p2 st dm h⟩

/-- C10 amended witness: starting a timer on the idle pin 15 from the boot
state and letting the clock tick keeps the status at the scheduled shape
with `start_at = None` (immediate mode) while the new task is unstarted. -/
theorem C10_status_window_amended_witness :
    (get_timer_status (steps (step initState (Ev.start 15 1000 false))
        [Ev.tick 5]) 15 =
      some (TimerStatus.scheduledStatus 15
        (if false then some (ticks_add initState.now SYNC_DELAY_MS) else none)
        1000) ∧
    (steps (step initState (Ev.start 15 1000 false)) [Ev.tick 5]).tasks
        initState.nextId = some
      { pin := 15, durationMs := 1000,
        startAt := if false then some (ticks_add initState.now SYNC_DELAY_MS)
          else none,
        pc := TaskPC.created, cancelRequested := false, done := false }) ∧
    (∀ (s2 : MState) (tid p2 st dm : ℕ),
      (runTask s2 tid).active_timers p2 = some (TimerInfo.running st dm) →
      s2.active_timers p2 = some (TimerInfo.running st dm) ∨
        (runTask s2 tid).relay p2 = true ∨ validPin p2 = false) :=
  C10_status_window_amended initState Reach.init 15 1000 false
    (by intro tid T h hp; simp [initState] at h)
    [Ev.tick 5]
    (by
      intro e he
      rw [List.mem_singleton] at he
      subst he
      rfl)

end Enlarger
